import Mathlib

/-!
Verification development for the response-parsing / validation / batch-orchestration
core of the qwen_vl repository.

The Python modules `qwen_vl/utils/parsers.py`, `qwen_vl/utils/cross_validation.py`,
`qwen_vl/utils/validators.py` and `qwen_vl/api/batch.py` are shallowly embedded below:
pure functions become Lean functions on `List Char` / rationals, fallible Python code
becomes `Except PyExc`-valued functions whose `except` clauses are modelled explicitly,
and external effects (the generation backend, image loading, uuid generation, wall
clocks, directory globbing) become explicit parameters.

Modelling notes on library boundaries:
* `json.loads` is embedded as a recursive-descent JSON reader (`jsonParse`).  JSON
  numbers are restricted to (signed) integer literals and string escapes to the
  single-character ones; none of the statements below depend on float or `\u` inputs.
* Python `str.strip`, `int(...)`, `float(...)` and the concrete regular expressions
  appearing in the source are embedded as first-order scanners whose behaviour on the
  relevant pattern class matches the CPython engine (leftmost match, greedy with
  backtracking where the pattern needs it).
* `datetime.strptime` is embedded for exactly the format directives appearing in the
  two date-format lists of the source, including CPython's 1-or-2-digit day/month
  fields, 4-digit years, case-insensitive month names and calendar validation.
-/

/-! ## Basic character utilities -/

/-- Whitespace as recognised by the JSON grammar (`json.loads`). -/
def isJsonWs (c : Char) : Bool :=
  c = ' ' || c = '\t' || c = '\n' || c = '\r'

/-- ASCII whitespace as recognised by `str.strip` and the regex class `\s`. -/
def isPyWs (c : Char) : Bool :=
  c = ' ' || c = '\t' || c = '\n' || c = '\r' || c = '\x0b' || c = '\x0c'

/-- Drop leading JSON whitespace. -/
def skipJWs : List Char → List Char
  | [] => []
  | c :: cs => if isJsonWs c then skipJWs cs else c :: cs

/-- Drop leading Python/regex whitespace. -/
def skipPWs : List Char → List Char
  | [] => []
  | c :: cs => if isPyWs c then skipPWs cs else c :: cs

/-- Remove leading Python whitespace (used to build `str.strip`). -/
def trimL : List Char → List Char
  | [] => []
  | c :: cs => if isPyWs c then trimL cs else c :: cs

/-- Python `str.strip()`: remove leading and trailing whitespace. -/
def pyStrip (l : List Char) : List Char :=
  trimL ((trimL l.reverse).reverse)

/-- Numeric value of a decimal digit character. -/
def digitVal (c : Char) : Nat := c.toNat - 48

/-- The decimal digit character for `n < 10`. -/
def digitChar10 (n : Nat) : Char := Char.ofNat (48 + n)

/-- Consume a maximal run of decimal digits, accumulating their value
(the common core of `\d+` capture groups and of JSON integer literals). -/
def munchDigits : Nat → List Char → Nat × List Char
  | acc, [] => (acc, [])
  | acc, c :: cs =>
    if c.isDigit then munchDigits (acc * 10 + digitVal c) cs else (acc, c :: cs)

/-- Decimal numeral of a natural number, via an explicit fuel so that the
definition is structurally recursive. -/
def numeralAux : Nat → Nat → List Char
  | 0, _ => []
  | fuel + 1, n =>
    if n < 10 then [digitChar10 n]
    else numeralAux fuel (n / 10) ++ [digitChar10 (n % 10)]

/-- Decimal numeral of a natural number (most significant digit first). -/
def numeral (n : Nat) : List Char := numeralAux (n + 1) n

/-- Value of a digit list read most-significant-first. -/
def natFromDigits (l : List Char) : Nat :=
  l.foldl (fun a c => a * 10 + digitVal c) 0

/-! ## The JSON value model and the `json.loads` embedding -/

/-- JSON values as produced by `json.loads` (numbers restricted to integers). -/
inductive Json : Type where
  | null : Json
  | bool : Bool → Json
  | num : Int → Json
  | str : List Char → Json
  | arr : List Json → Json
  | obj : List (List Char × Json) → Json

/-- Python truthiness of a JSON value (`if json_data:`). -/
def pyTruthy : Json → Bool
  | .null => false
  | .bool b => b
  | .num n => decide (n ≠ 0)
  | .str s => !s.isEmpty
  | .arr xs => !xs.isEmpty
  | .obj m => !m.isEmpty

/-- Dictionary lookup with Python `dict` semantics: for duplicate keys in the
source text the last binding wins, as in `json.loads`. -/
def lookupLast : List (List Char × Json) → List Char → Option Json
  | [], _ => none
  | (k, v) :: rest, key =>
    match lookupLast rest key with
    | some w => some w
    | none => if k = key then some v else none

/-- Single-character JSON string escapes (`\uXXXX` is not modelled). -/
def escPairs : List (Char × Char) :=
  [('"', '"'), ('\\', '\\'), ('/', '/'), ('n', '\n'), ('t', '\t'),
   ('r', '\r'), ('b', '\x08'), ('f', '\x0c')]

/-- Decode a single-character JSON string escape via the table above. -/
def escChar (e : Char) : Option Char :=
  (escPairs.find? (fun p => p.1 == e)).map Prod.snd

/-- Parse the body of a JSON string after the opening quote; returns the decoded
characters and the remainder after the closing quote. -/
def jStr : List Char → Option (List Char × List Char)
  | [] => none
  | '"' :: r => some ([], r)
  | '\\' :: e :: r =>
    match escChar e with
    | some c => (jStr r).map (fun p => (c :: p.1, p.2))
    | none => none
  | c :: r => (jStr r).map (fun p => (c :: p.1, p.2))

/-- Match an exact literal character sequence. -/
def matchLit : List Char → List Char → Option (List Char)
  | [], l => some l
  | p :: ps, c :: cs => if p = c then matchLit ps cs else none
  | _ :: _, [] => none

mutual

/-- Recursive-descent JSON value reader (the `json.loads` grammar), with fuel. -/
def jVal : Nat → List Char → Option (Json × List Char)
  | 0, _ => none
  | fuel + 1, l =>
    match l with
    | [] => none
    | c :: cs =>
      if c = '{' then
        match skipJWs cs with
        | '}' :: r => some (.obj [], r)
        | r => jMembers fuel r []
      else if c = '[' then
        match skipJWs cs with
        | ']' :: r => some (.arr [], r)
        | r => jElems fuel r []
      else if c = '"' then
        match jStr cs with
        | some (s, r) => some (.str s, r)
        | none => none
      else if c.isDigit then
        let p := munchDigits (digitVal c) cs
        some (.num (Int.ofNat p.1), p.2)
      else if c = '-' then
        match cs with
        | d :: ds =>
          if d.isDigit then
            let p := munchDigits (digitVal d) ds
            some (.num (-(Int.ofNat p.1)), p.2)
          else none
        | [] => none
      else if c = 't' then
        (matchLit ['r', 'u', 'e'] cs).map (fun r => (.bool true, r))
      else if c = 'f' then
        (matchLit ['a', 'l', 's', 'e'] cs).map (fun r => (.bool false, r))
      else if c = 'n' then
        (matchLit ['u', 'l', 'l'] cs).map (fun r => (.null, r))
      else none

/-- Members of a JSON object after the opening brace (nonempty case). -/
def jMembers : Nat → List Char → List (List Char × Json) →
    Option (Json × List Char)
  | 0, _, _ => none
  | fuel + 1, l, acc =>
    match l with
    | '"' :: cs =>
      match jStr cs with
      | some (k, r) =>
        match skipJWs r with
        | ':' :: r2 =>
          match jVal fuel (skipJWs r2) with
          | some (v, r3) =>
            match skipJWs r3 with
            | ',' :: r4 => jMembers fuel (skipJWs r4) (acc ++ [(k, v)])
            | '}' :: r4 => some (.obj (acc ++ [(k, v)]), r4)
            | _ => none
          | none => none
        | _ => none
      | none => none
    | _ => none

/-- Elements of a JSON array after the opening bracket (nonempty case);
expects leading whitespace already skipped. -/
def jElems : Nat → List Char → List Json → Option (Json × List Char)
  | 0, _, _ => none
  | fuel + 1, l, acc =>
    match jVal fuel l with
    | some (v, r) =>
      match skipJWs r with
      | ',' :: r2 => jElems fuel (skipJWs r2) (acc ++ [v])
      | ']' :: r2 => some (.arr (acc ++ [v]), r2)
      | _ => none
    | none => none

end

/-- Full-input JSON parse: surrounding whitespace allowed, everything consumed. -/
def jsonParse (l : List Char) : Option Json :=
  match jVal (l.length + 1) (skipJWs l) with
  | some (v, rest) => if skipJWs rest = [] then some v else none
  | none => none

/-! ## The Python exception model -/

/-- The exception kinds that the embedded parsing code can raise or catch. -/
inductive PyExc where
  | jsonDecodeError : PyExc
  | valueError : PyExc
  | typeError : PyExc
deriving DecidableEq

/-- The `json.loads`: returns the value or raises `json.JSONDecodeError`. -/
def jsonLoads (l : List Char) : Except PyExc Json :=
  match jsonParse l with
  | some v => .ok v
  | none => .error .jsonDecodeError

/-- Python `int(...)` on a string: optional sign and digits after stripping
whitespace; otherwise `ValueError`. -/
def pyIntOfStr (s : List Char) : Except PyExc Int :=
  let t := pyStrip s
  match t with
  | '-' :: ds =>
    if ds ≠ [] ∧ ds.all Char.isDigit then .ok (-(Int.ofNat (natFromDigits ds)))
    else .error .valueError
  | '+' :: ds =>
    if ds ≠ [] ∧ ds.all Char.isDigit then .ok (Int.ofNat (natFromDigits ds))
    else .error .valueError
  | ds =>
    if ds ≠ [] ∧ ds.all Char.isDigit then .ok (Int.ofNat (natFromDigits ds))
    else .error .valueError

/-- Python `int(...)` applied to a decoded JSON value: numbers and booleans
convert, numeric strings parse, and `None` / lists / dicts raise `TypeError`. -/
def pyInt : Json → Except PyExc Int
  | .num n => .ok n
  | .bool b => .ok (if b then 1 else 0)
  | .str s => pyIntOfStr s
  | .null => .error .typeError
  | .arr _ => .error .typeError
  | .obj _ => .error .typeError

/-! ## Embedding of `qwen_vl/utils/parsers.py` -/

/-- The backtick character (code 96). -/
def btick : Char := Char.ofNat 96

/-- The three-backtick literal that closes a markdown fence. -/
def tick3 : List Char := [btick, btick, btick]

/-- The literal that opens a json-tagged markdown fence. -/
def tagJson : List Char := tick3 ++ ['j', 's', 'o', 'n']

/-- The `startsWithL pat l` holds when `pat` is an initial segment of `l`. -/
def startsWithL : List Char → List Char → Bool
  | [], _ => true
  | p :: ps, l =>
    match l with
    | [] => false
    | c :: cs => p = c && startsWithL ps cs

/-- Remainder of `l` after the first occurrence of `tag` (regex literal scan). -/
def afterFirstTag (tag : List Char) : List Char → Option (List Char)
  | [] => if startsWithL tag [] then some (([] : List Char).drop tag.length) else none
  | c :: cs =>
    if startsWithL tag (c :: cs) then some ((c :: cs).drop tag.length)
    else afterFirstTag tag cs

/-- Split `l` at the first closing fence: the content before the first
occurrence of three backticks, and the remainder after it. -/
def splitClose : List Char → Option (List Char × List Char)
  | [] => none
  | c :: cs =>
    if startsWithL tick3 (c :: cs) then some ([], (c :: cs).drop 3)
    else
      match splitClose cs with
      | some (b, a) => some (c :: b, a)
      | none => none

/-- All captures of the fenced-block regex with opening literal `tag`
(`re.findall` semantics: leftmost matches, scanning resumes after each
closing fence).  The `\s*` trimming done by the regex around the lazy group
is absorbed by the `.strip()` the caller applies to every capture. -/
def fencedCaps : Nat → List Char → List Char → List (List Char)
  | 0, _, _ => []
  | fuel + 1, tag, l =>
    match afterFirstTag tag l with
    | none => []
    | some rest =>
      match splitClose rest with
      | none => []
      | some (between, after) => between :: fencedCaps fuel tag after

/-- Suffix of `l` starting at the first occurrence of `openC`. -/
def suffixFromOpen (openC : Char) : List Char → Option (List Char)
  | [] => none
  | c :: cs => if c = openC then some (c :: cs) else suffixFromOpen openC cs

/-- Prefix of `l` up to (and including) the first occurrence of `t` in
the reversed list. -/
def dropUntilChar (t : Char) : List Char → Option (List Char)
  | [] => none
  | c :: cs => if c = t then some (c :: cs) else dropUntilChar t cs

/-- Prefix of `l` ending at the last occurrence of `closeC` (inclusive). -/
def cutAfterLast (closeC : Char) (l : List Char) : Option (List Char) :=
  (dropUntilChar closeC l.reverse).map List.reverse

/-- The single candidate produced by the greedy span regex
(`\{[\s\S]*\}` resp. `\[[\s\S]*\]`): from the first opening delimiter to the
last closing delimiter, provided the latter comes after the former. -/
def spanCand (openC closeC : Char) (l : List Char) : List (List Char) :=
  match suffixFromOpen openC l with
  | none => []
  | some suf =>
    match cutAfterLast closeC suf with
    | none => []
    | some span => [span]

/-- The re-slicing the source applies to a candidate that does not start with
the opening delimiter: keep the part from the first `openC` to the last
`closeC` when both exist in the right order, otherwise keep the candidate. -/
def resliceSpan (openC closeC : Char) (s : List Char) : List Char :=
  match suffixFromOpen openC s with
  | none => s
  | some suf =>
    match cutAfterLast closeC suf with
    | none => s
    | some span => span

/-- Candidate cleanup in `parse_json_from_markdown`:
`json_str = match.strip()` followed by the first-`{` / last-`}` re-slice. -/
def cleanObjCand (cand : List Char) : List Char :=
  let s := pyStrip cand
  if startsWithL ['{'] s then s else resliceSpan '{' '}' s

/-- Candidate cleanup in `parse_json_array_from_markdown`. -/
def cleanArrCand (cand : List Char) : List Char :=
  let s := pyStrip cand
  if startsWithL ['['] s then s else resliceSpan '[' ']' s

/-- The candidate loop of `parse_json_from_markdown`: return the first
candidate that `json.loads` accepts (note: the loaded value is returned
unchecked, whatever its JSON kind), swallowing only `JSONDecodeError`. -/
def tryCandsObj : List (List Char) → Except PyExc (Option Json)
  | [] => .ok none
  | cand :: rest =>
    match jsonLoads (cleanObjCand cand) with
    | .ok v => .ok (some v)
    | .error e => if e = .jsonDecodeError then tryCandsObj rest else .error e

/-- The candidate loop of `parse_json_array_from_markdown`: a loaded value is
returned only when it is a list, otherwise the loop continues. -/
def tryCandsArr : List (List Char) → Except PyExc (Option (List Json))
  | [] => .ok none
  | cand :: rest =>
    match jsonLoads (cleanArrCand cand) with
    | .ok (.arr xs) => .ok (some xs)
    | .ok _ => tryCandsArr rest
    | .error e => if e = .jsonDecodeError then tryCandsArr rest else .error e

/-- The `parse_json_from_markdown` (parseObject). -/
def parse_json_from_markdown (text : List Char) : Except PyExc (Option Json) :=
  tryCandsObj
    (fencedCaps (text.length + 1) tagJson text ++
     fencedCaps (text.length + 1) tick3 text ++
     spanCand '{' '}' text)

/-- The `parse_json_array_from_markdown` (parseArray). -/
def parse_json_array_from_markdown (text : List Char) :
    Except PyExc (Option (List Json)) :=
  tryCandsArr
    (fencedCaps (text.length + 1) tagJson text ++
     fencedCaps (text.length + 1) tick3 text ++
     spanCand '[' ']' text)

/-! ### `parse_bounding_box` -/

/-- Bounding box record with integer-coerced coordinates. -/
structure BBoxI where
  x1 : Int
  y1 : Int
  x2 : Int
  y2 : Int
deriving DecidableEq

/-- Match `\d+` at the head of the input (at least one digit, greedy). -/
def matchDigits1 : List Char → Option (Nat × List Char)
  | [] => none
  | c :: cs => if c.isDigit then some (munchDigits (digitVal c) cs) else none

/-- Match `,\s*(\d+)` at the head of the input. -/
def matchCommaGroup : List Char → Option (Nat × List Char)
  | ',' :: r => matchDigits1 (skipPWs r)
  | _ => none

/-- Try the quadruple regex `openC (\d+),\s*(\d+),\s*(\d+),\s*(\d+) closeC`
at the current position. -/
def tryQuad (openC closeC : Char) : List Char → Option (Nat × Nat × Nat × Nat × List Char)
  | [] => none
  | c :: cs =>
    if c = openC then
      match matchDigits1 cs with
      | none => none
      | some (a, r1) =>
        match matchCommaGroup r1 with
        | none => none
        | some (b, r2) =>
          match matchCommaGroup r2 with
          | none => none
          | some (c3, r3) =>
            match matchCommaGroup r3 with
            | none => none
            | some (d, r4) =>
              match r4 with
              | x :: r5 => if x = closeC then some (a, b, c3, d, r5) else none
              | [] => none
    else none

/-- Try the bare quadruple regex `(\d+),\s*(\d+),\s*(\d+),\s*(\d+)`. -/
def tryBare (l : List Char) : Option (Nat × Nat × Nat × Nat × List Char) :=
  match matchDigits1 l with
  | none => none
  | some (a, r1) =>
    match matchCommaGroup r1 with
    | none => none
    | some (b, r2) =>
      match matchCommaGroup r2 with
      | none => none
      | some (c3, r3) =>
        match matchCommaGroup r3 with
        | none => none
        | some (d, r4) => some (a, b, c3, d, r4)

/-- The `re.search` for the delimited quadruple pattern: leftmost match. -/
def searchQuad (openC closeC : Char) : List Char → Option (Nat × Nat × Nat × Nat)
  | [] => none
  | c :: cs =>
    match tryQuad openC closeC (c :: cs) with
    | some (a, b, c3, d, _) => some (a, b, c3, d)
    | none => searchQuad openC closeC cs

/-- The `re.search` for the bare quadruple pattern: leftmost match. -/
def searchBare : List Char → Option (Nat × Nat × Nat × Nat)
  | [] => none
  | c :: cs =>
    match tryBare (c :: cs) with
    | some (a, b, c3, d, _) => some (a, b, c3, d)
    | none => searchBare cs

/-- The regex fallback phase of `parse_bounding_box`, trying the three
patterns in source order. -/
def bboxRegexPhase (text : List Char) : Option BBoxI :=
  match searchQuad '[' ']' text with
  | some (a, b, c, d) => some ⟨a, b, c, d⟩
  | none =>
    match searchQuad '(' ')' text with
    | some (a, b, c, d) => some ⟨a, b, c, d⟩
    | none =>
      match searchBare text with
      | some (a, b, c, d) => some ⟨a, b, c, d⟩
      | none => none

/-- Keys of the bounding-box object encoding. -/
def keyX1 : List Char := ['x', '1']
/-- Second bounding-box key. -/
def keyY1 : List Char := ['y', '1']
/-- Third bounding-box key. -/
def keyX2 : List Char := ['x', '2']
/-- Fourth bounding-box key. -/
def keyY2 : List Char := ['y', '2']

/-- The body of `parse_bounding_box`'s `try` block applied to a decoded JSON
value: the dict branch (all four corner keys present, values coerced with
`int(...)`), the 4-element list branch, and the fall-through `ok none`. -/
def bboxFromJson : Json → Except PyExc (Option BBoxI)
  | .obj kvs =>
    if (lookupLast kvs keyX1).isSome ∧ (lookupLast kvs keyY1).isSome ∧
       (lookupLast kvs keyX2).isSome ∧ (lookupLast kvs keyY2).isSome then do
      let a ← pyInt ((lookupLast kvs keyX1).getD .null)
      let b ← pyInt ((lookupLast kvs keyY1).getD .null)
      let c ← pyInt ((lookupLast kvs keyX2).getD .null)
      let d ← pyInt ((lookupLast kvs keyY2).getD .null)
      pure (some ⟨a, b, c, d⟩)
    else pure none
  | .arr [w, x, y, z] => do
    let a ← pyInt w
    let b ← pyInt x
    let c ← pyInt y
    let d ← pyInt z
    pure (some ⟨a, b, c, d⟩)
  | _ => pure none

/-- The `try` block of `parse_bounding_box`: `json.loads` then the shape
dispatch, with exceptions propagating. -/
def bboxTryPhase (text : List Char) : Except PyExc (Option BBoxI) :=
  match jsonLoads text with
  | .ok dat => bboxFromJson dat
  | .error e => .error e

/-- The `parse_bounding_box` (parseBoundingBox).  The `except` clause catches
`JSONDecodeError`, `ValueError` and `TypeError`; on any of those, and on a
fall-through of the `try` block, the regex phase runs. -/
def parse_bounding_box (text : List Char) : Except PyExc (Option BBoxI) :=
  match bboxTryPhase text with
  | .ok (some b) => .ok (some b)
  | .ok none => .ok (bboxRegexPhase text)
  | .error e =>
    if e = .jsonDecodeError ∨ e = .valueError ∨ e = .typeError then
      .ok (bboxRegexPhase text)
    else .error e

/-! ### `parse_coordinates` and its line-oriented fallback pattern -/

/-- Characters admissible inside the label group of the fallback pattern
(the regex class excludes quote, colon and square brackets). -/
def groupOk (c : Char) : Bool :=
  !(c = '"' || c = ':' || c = '[' || c = ']')

/-- Deterministic tail of the labelled-box pattern after the label group:
optional closing quote, `\s*:\s*`, an opening `[` or `(`, four digit groups
separated by `,\s*`, and a closing `]` or `)`. -/
def lpTail (l : List Char) : Option (Nat × Nat × Nat × Nat × List Char) :=
  let l1 := match l with
    | '"' :: r => r
    | r => r
  match skipPWs l1 with
  | ':' :: r =>
    match skipPWs r with
    | b :: r3 =>
      if b = '[' ∨ b = '(' then
        match matchDigits1 r3 with
        | none => none
        | some (a, r4) =>
          match matchCommaGroup r4 with
          | none => none
          | some (bb, r5) =>
            match matchCommaGroup r5 with
            | none => none
            | some (cc, r6) =>
              match matchCommaGroup r6 with
              | none => none
              | some (dd, r7) =>
                match r7 with
                | e :: r8 => if e = ']' ∨ e = ')' then some (a, bb, cc, dd, r8) else none
                | [] => none
      else none
    | [] => none
  | _ => none

/-- Greedy-with-backtracking label group: try the longest run first and give
characters back to the tail one at a time (`[^":\[\]]+` semantics). -/
def lpGroup : List Char → List Char → Option (List Char × Nat × Nat × Nat × Nat × List Char)
  | [], _ => none
  | g :: gs, rest =>
    match lpTail rest with
    | some (a, b, c, d, r) => some ((g :: gs).reverse, a, b, c, d, r)
    | none => lpGroup gs (g :: rest)

/-- Try the labelled-box pattern at the current position.  The optional
opening quote is consumed when present (the no-consume alternative dead-ends
because the group class excludes the quote character). -/
def matchLPAt (l : List Char) :
    Option (List Char × Nat × Nat × Nat × Nat × List Char) :=
  let l1 := match l with
    | '"' :: r => r
    | r => r
  let run := l1.takeWhile groupOk
  if run.isEmpty then none else lpGroup run.reverse (l1.drop run.length)

/-- The `re.findall` over the labelled-box pattern: leftmost non-overlapping
matches, scanning resuming after each match. -/
def findLP : Nat → List Char → List (List Char × Nat × Nat × Nat × Nat)
  | 0, _ => []
  | fuel + 1, l =>
    match l with
    | [] => []
    | c :: cs =>
      match matchLPAt (c :: cs) with
      | some (lab, a, b, c3, d, rest) => (lab, a, b, c3, d) :: findLP fuel rest
      | none => findLP fuel cs

/-- Key `"label"` of the fallback entries. -/
def keyLabel : List Char := ['l', 'a', 'b', 'e', 'l']
/-- Key `"bbox"` of the fallback entries. -/
def keyBbox : List Char := ['b', 'b', 'o', 'x']

/-- Entries built by the line-oriented fallback of `parse_coordinates`. -/
def lineEntries (text : List Char) : List Json :=
  (findLP (text.length + 1) text).map fun q =>
    Json.obj
      [(keyLabel, .str (pyStrip q.1)),
       (keyBbox, .obj
          [(keyX1, .num q.2.1), (keyY1, .num q.2.2.1),
           (keyX2, .num q.2.2.2.1), (keyY2, .num q.2.2.2.2)])]

/-- Python truthiness of the optional value `parse_json_from_markdown`
returned (`if json_data:`). -/
def truthyOpt : Option Json → Bool
  | some v => pyTruthy v
  | none => false

/-- Python truthiness of the optional list `parse_json_array_from_markdown`
returned (`if json_array:`). -/
def truthyOptList : Option (List Json) → Bool
  | some xs => !xs.isEmpty
  | none => false

/-- The result `parse_coordinates` returns when `json_data` is truthy: a dict
carrying a `bbox` key or all four corner keys is appended as-is, anything
else yields the (possibly empty) result list with no fallback. -/
def coordObjBranch : Json → List Json
  | .obj kvs =>
    if (lookupLast kvs keyBbox).isSome ∨
       ((lookupLast kvs keyX1).isSome ∧ (lookupLast kvs keyY1).isSome ∧
        (lookupLast kvs keyX2).isSome ∧ (lookupLast kvs keyY2).isSome) then
      [Json.obj kvs]
    else []
  | _ => []

/-- The `parse_coordinates` (parseLabeledBoxes).  A truthy object-parse result is
returned via `coordObjBranch` without consulting the fallback; a truthy
array-parse result is returned as-is; only when both are falsy does the
line-oriented pattern run.  Exceptions from the nested parsers propagate. -/
def parse_coordinates (text : List Char) : Except PyExc (List Json) :=
  match parse_json_from_markdown text with
  | .error e => .error e
  | .ok jd =>
    if truthyOpt jd then .ok (coordObjBranch (jd.getD .null))
    else
      match parse_json_array_from_markdown text with
      | .error e => .error e
      | .ok ja =>
        if truthyOptList ja then .ok (ja.getD [])
        else .ok (lineEntries text)

/-! ### `parse_xml_points` -/

/-- Try the point pattern `<point\s+x="(\d+)"\s+y="(\d+)"\s*/>` at the
current position. -/
def matchPointAt (l : List Char) : Option (Nat × Nat × List Char) :=
  match matchLit ['<', 'p', 'o', 'i', 'n', 't'] l with
  | none => none
  | some r0 =>
    match r0 with
    | c :: r1 =>
      if isPyWs c then
        match matchLit ['x', '=', '"'] (skipPWs r1) with
        | none => none
        | some r2 =>
          match matchDigits1 r2 with
          | none => none
          | some (x, r3) =>
            match r3 with
            | '"' :: c2 :: r4 =>
              if isPyWs c2 then
                match matchLit ['y', '=', '"'] (skipPWs r4) with
                | none => none
                | some r5 =>
                  match matchDigits1 r5 with
                  | none => none
                  | some (y, r6) =>
                    match r6 with
                    | '"' :: r7 =>
                      match matchLit ['/', '>'] (skipPWs r7) with
                      | none => none
                      | some r8 => some (x, y, r8)
                    | _ => none
              else none
            | _ => none
      else none
    | [] => none

/-- The `re.findall` over the point pattern. -/
def findPoints : Nat → List Char → List (Nat × Nat)
  | 0, _ => []
  | fuel + 1, l =>
    match l with
    | [] => []
    | c :: cs =>
      match matchPointAt (c :: cs) with
      | some (x, y, rest) => (x, y) :: findPoints fuel rest
      | none => findPoints fuel cs

/-- The `parse_xml_points` (parsePoints): a pure regex scan; the body contains no
fallible operation, so the computation is a plain `ok`. -/
def parse_xml_points (text : List Char) : Except PyExc (List (Nat × Nat)) :=
  .ok (findPoints (text.length + 1) text)

/-! ## Embedding of `qwen_vl/utils/cross_validation.py` (total reconciliation) -/

/-- Python scalar values that reach `_to_float` in the validated records.
Python's separate `int` and `float` are merged into exact rationals; floats
in the source are modelled as `ℚ` throughout (the claims under study concern
which list a finding lands in, not float rounding). -/
inductive PyVal where
  | none : PyVal
  | num (q : ℚ) : PyVal
  | str (s : List Char) : PyVal

/-- The `dict.get(key, default)` on a record. -/
def dGet : List (String × PyVal) → String → PyVal → PyVal
  | [], _, dflt => dflt
  | (k, v) :: rest, key, dflt => if k = key then v else dGet rest key dflt

/-- Currency symbols, commas and whitespace removed by `_to_float`'s
`re.sub(r'[$€£¥₹,\s]', '', value)`. -/
def isCurrencyJunk (c : Char) : Bool :=
  c = '$' || c = '€' || c = '£' || c = '¥' || c = '₹' || c = ',' || isPyWs c

/-- Parse a Python decimal float literal (optional sign, digits with an
optional fractional part; exponents are not modelled). -/
def pyFloatOfStr (s : List Char) : Option ℚ :=
  let core : List Char → Option ℚ := fun t =>
    let intPart := t.takeWhile Char.isDigit
    let rest := t.drop intPart.length
    match rest with
    | [] => if intPart.isEmpty then none else some (natFromDigits intPart : ℚ)
    | '.' :: fr =>
      if fr.all Char.isDigit ∧ ¬(intPart.isEmpty ∧ fr.isEmpty) then
        some ((natFromDigits intPart : ℚ) +
              (natFromDigits fr : ℚ) / ((10 : ℚ) ^ fr.length))
      else none
    | _ => none
  match s with
  | '-' :: t => (core t).map (fun q => -q)
  | '+' :: t => core t
  | t => core t

/-- The `_to_float`: `None` ↦ 0, numbers pass through, strings are stripped of
currency junk and parsed, anything unparsable ↦ 0. -/
def _to_float : PyVal → ℚ
  | .none => 0
  | .num q => q
  | .str s =>
    match pyFloatOfStr (s.filter (fun c => !isCurrencyJunk c)) with
    | some q => q
    | none => 0

/-- Python `abs` on the exact rationals standing in for floats. -/
def ratAbs (q : ℚ) : ℚ := if q < 0 then -q else q

/-- Findings collected by `validate_total_calculation`, modelled structurally
(the source renders each into a message string such as
`Line {i+1}: quantity * unit_price ({expected:.2f}) != amount ({amount:.2f})`;
the parameters carried here are exactly the ones interpolated there). -/
inductive VMsg where
  | lineMismatch (index : Nat) (expected amount : ℚ) : VMsg
  | subtotalMismatch (calculated reported : ℚ) : VMsg
  | totalMismatch (base tax discount expectedTotal total : ℚ) : VMsg
deriving DecidableEq

/-- The per-line-item loop of `validate_total_calculation`: accumulates the
calculated subtotal and the per-line mismatch findings, with `idx` the
0-based `enumerate` index (messages carry `idx+1`). -/
def lineScan (tol : ℚ) : Nat → List (List (String × PyVal)) → ℚ × List VMsg
  | _, [] => (0, [])
  | idx, item :: rest =>
    let amount := _to_float (dGet item "amount" (.num 0))
    let qty := _to_float (dGet item "quantity" (.num 1))
    let price := _to_float (dGet item "unit_price" (.num 0))
    let contrib : ℚ :=
      if 0 < amount then amount
      else if 0 < qty ∧ 0 < price then qty * price else 0
    let errs : List VMsg :=
      if 0 < qty ∧ 0 < price ∧ 0 < amount ∧ tol < ratAbs (qty * price - amount) then
        [VMsg.lineMismatch (idx + 1) (qty * price) amount]
      else []
    let tail := lineScan tol (idx + 1) rest
    (contrib + tail.1, errs ++ tail.2)

/-- Result record of `validate_total_calculation` (`is_valid`, `errors`, and
the `calculated` map's two entries). -/
structure VTCResult where
  is_valid : Bool
  errors : List VMsg
  calcSubtotal : ℚ
  calcExpectedTotal : ℚ
deriving DecidableEq

/-- The `validate_total_calculation`.  Note that per-line quantity×price/amount
mismatches are appended to the same `errors` list as the subtotal and total
mismatches, and `is_valid` is `errors == []`. -/
def validate_total_calculation (line_items : List (List (String × PyVal)))
    (summary : List (String × PyVal)) (tol : ℚ) : VTCResult :=
  let scan := lineScan tol 0 line_items
  let item_subtotal := scan.1
  let reported := _to_float (dGet summary "subtotal" (.num 0))
  let tax := _to_float (dGet summary "tax" (.num 0))
  let discount := _to_float (dGet summary "discount" (.num 0))
  let total := _to_float (dGet summary "total" (.num 0))
  let subErrs : List VMsg :=
    if 0 < item_subtotal ∧ 0 < reported ∧ tol < ratAbs (item_subtotal - reported) then
      [.subtotalMismatch item_subtotal reported]
    else []
  let base := if 0 < reported then reported else item_subtotal
  let expected_total := base + tax - discount
  let totErrs : List VMsg :=
    if 0 < total ∧ tol < ratAbs (expected_total - total) then
      [.totalMismatch base tax discount expected_total total]
    else []
  let errors := scan.2 ++ subErrs ++ totErrs
  { is_valid := errors.isEmpty, errors := errors,
    calcSubtotal := item_subtotal, calcExpectedTotal := expected_total }

/-! ## Embedding of the two date parsers (`validators.validate_date` and
`cross_validation._parse_date`), via a `datetime.strptime` model -/

/-- A calendar date as produced by `datetime.strptime` (time parts unused). -/
structure DateYMD where
  y : Nat
  m : Nat
  d : Nat
deriving DecidableEq

/-- The `strptime` format directives occurring in the two format lists: a literal
character, format whitespace (matching `\s+`), `%Y`, `%m`, `%d`, `%B`, `%b`. -/
inductive Dirv where
  | lit (c : Char) : Dirv
  | wsp : Dirv
  | yr4 : Dirv
  | mon2 : Dirv
  | day2 : Dirv
  | monFull : Dirv
  | monAbbr : Dirv
deriving DecidableEq

/-- ASCII lowercase (for `strptime`'s case-insensitive matching). -/
def lowerC (c : Char) : Char :=
  if 'A' ≤ c ∧ c ≤ 'Z' then Char.ofNat (c.toNat + 32) else c

/-- Full English month names, lowercased. -/
def monthNamesFull : List (List Char) :=
  ["january", "february", "march", "april", "may", "june", "july",
   "august", "september", "october", "november", "december"].map String.toList

/-- Abbreviated English month names, lowercased. -/
def monthNamesAbbr : List (List Char) :=
  ["jan", "feb", "mar", "apr", "may", "jun", "jul", "aug", "sep", "oct",
   "nov", "dec"].map String.toList

/-- Match one lowercased name case-insensitively at the head of the input. -/
def stripNameCI : List Char → List Char → Option (List Char)
  | [], rest => some rest
  | _ :: _, [] => none
  | n :: ns, c :: cs => if lowerC c = n then stripNameCI ns cs else none

/-- Match one of a list of month names, returning its 1-based index. -/
def matchMonthName : Nat → List (List Char) → List Char → Option (Nat × List Char)
  | _, [], _ => none
  | i, nm :: rest, l =>
    match stripNameCI nm l with
    | some r => some (i + 1, r)
    | none => matchMonthName (i + 1) rest l

/-- CPython's 1-or-2-digit numeric field (`%d` / `%m`): two digits are taken
when they form a value in `1..hi` (leading zero allowed, `00` excluded),
otherwise a single digit `1..9`. -/
def parse2Digit (hi : Nat) : List Char → Option (Nat × List Char)
  | [] => none
  | [a] =>
    if a.isDigit ∧ 1 ≤ digitVal a then some (digitVal a, []) else none
  | a :: b :: rest =>
    if a.isDigit then
      if b.isDigit then
        let v := digitVal a * 10 + digitVal b
        if 1 ≤ v ∧ v ≤ hi then some (v, rest)
        else if 1 ≤ digitVal a then some (digitVal a, b :: rest)
        else none
      else if 1 ≤ digitVal a then some (digitVal a, b :: rest)
      else none
    else none

/-- The `%Y`: exactly four digits. -/
def parse4Digit : List Char → Option (Nat × List Char)
  | a :: b :: c :: d :: rest =>
    if a.isDigit ∧ b.isDigit ∧ c.isDigit ∧ d.isDigit then
      some (digitVal a * 1000 + digitVal b * 100 + digitVal c * 10 + digitVal d,
            rest)
    else none
  | _ => none

/-- Run a directive list against the input, threading the field state
`(year?, month?, day?)`. -/
def runDirs : List Dirv → List Char → Option Nat × Option Nat × Option Nat →
    Option ((Option Nat × Option Nat × Option Nat) × List Char)
  | [], l, st => some (st, l)
  | dv :: rest, l, st =>
    match dv with
    | .lit c =>
      match l with
      | x :: xs => if lowerC x = lowerC c then runDirs rest xs st else none
      | [] => none
    | .wsp =>
      match l with
      | x :: xs => if isPyWs x then runDirs rest (skipPWs xs) st else none
      | [] => none
    | .yr4 =>
      match parse4Digit l with
      | some (y, r) => runDirs rest r (some y, st.2.1, st.2.2)
      | none => none
    | .mon2 =>
      match parse2Digit 12 l with
      | some (m, r) => runDirs rest r (st.1, some m, st.2.2)
      | none => none
    | .day2 =>
      match parse2Digit 31 l with
      | some (d, r) => runDirs rest r (st.1, st.2.1, some d)
      | none => none
    | .monFull =>
      match matchMonthName 0 monthNamesFull l with
      | some (m, r) => runDirs rest r (st.1, some m, st.2.2)
      | none => none
    | .monAbbr =>
      match matchMonthName 0 monthNamesAbbr l with
      | some (m, r) => runDirs rest r (st.1, some m, st.2.2)
      | none => none

/-- Gregorian leap-year rule used by `datetime`. -/
def leapYear (y : Nat) : Bool :=
  y % 4 = 0 && (y % 100 ≠ 0 || y % 400 = 0)

/-- Days in a month (for `datetime`'s calendar validation). -/
def daysInMonth (y m : Nat) : Nat :=
  if m = 2 then (if leapYear y then 29 else 28)
  else if m = 4 ∨ m = 6 ∨ m = 9 ∨ m = 11 then 30
  else 31

/-- The `datetime.strptime(s, fmt)` restricted to the directives above: the whole
input must be consumed, all three fields set, and the date must exist on the
calendar (otherwise `ValueError`, which both callers treat as a failed
format). -/
def strptimeD (fmt : List Dirv) (s : List Char) : Option DateYMD :=
  match runDirs fmt s (none, none, none) with
  | some ((some y, some m, some d), []) =>
    if 1 ≤ y ∧ y ≤ 9999 ∧ 1 ≤ m ∧ m ≤ 12 ∧ 1 ≤ d ∧ d ≤ daysInMonth y m then
      some ⟨y, m, d⟩
    else none
  | _ => none

/-- The `"%Y-%m-%d"`. -/
def fmtISO : List Dirv := [.yr4, .lit '-', .mon2, .lit '-', .day2]
/-- The `"%d/%m/%Y"`. -/
def fmtDMYslash : List Dirv := [.day2, .lit '/', .mon2, .lit '/', .yr4]
/-- The `"%m/%d/%Y"`. -/
def fmtMDYslash : List Dirv := [.mon2, .lit '/', .day2, .lit '/', .yr4]
/-- The `"%d-%m-%Y"`. -/
def fmtDMYdash : List Dirv := [.day2, .lit '-', .mon2, .lit '-', .yr4]
/-- The `"%B %d, %Y"`. -/
def fmtBdY : List Dirv := [.monFull, .wsp, .day2, .lit ',', .wsp, .yr4]
/-- The `"%b %d, %Y"`. -/
def fmtNbdY : List Dirv := [.monAbbr, .wsp, .day2, .lit ',', .wsp, .yr4]
/-- The `"%d %B %Y"`. -/
def fmtdBY : List Dirv := [.day2, .wsp, .monFull, .wsp, .yr4]
/-- The `"%d %b %Y"`. -/
def fmtdbY : List Dirv := [.day2, .wsp, .monAbbr, .wsp, .yr4]

/-- The format list of `cross_validation._parse_date` (seven formats). -/
def crossFormats : List (List Dirv) :=
  [fmtISO, fmtDMYslash, fmtMDYslash, fmtDMYdash, fmtBdY, fmtNbdY, fmtdBY]

/-- The format list of `validators.validate_date` (the same seven followed by
`"%d %b %Y"`). -/
def validatorFormats : List (List Dirv) :=
  [fmtISO, fmtDMYslash, fmtMDYslash, fmtDMYdash, fmtBdY, fmtNbdY, fmtdBY, fmtdbY]

/-- The `validators.validate_date`: true iff some format in its list parses the
stripped value (the source returns `(False, message)` when none does). -/
def validate_date (v : List Char) : Bool :=
  validatorFormats.any fun f => (strptimeD f (pyStrip v)).isSome

/-- First-success loop over a format list (the `for fmt in formats` loop of
`_parse_date`). -/
def firstFormatDate (v : List Char) : List (List Dirv) → Option DateYMD
  | [] => none
  | f :: rest =>
    match strptimeD f (pyStrip v) with
    | some d => some d
    | none => firstFormatDate v rest

/-- The `cross_validation._parse_date`: the date from the first format in its
list that parses the stripped value. -/
def cross_parse_date (v : List Char) : Option DateYMD :=
  firstFormatDate v crossFormats

/-! ## Embedding of `qwen_vl/api/batch.py` -/

/-- The `JobStatus`. -/
inductive JobStatus where
  | pending : JobStatus
  | processing : JobStatus
  | completed : JobStatus
  | failed : JobStatus
  | cancelled : JobStatus
deriving DecidableEq

/-- The record a task handler returns for one item
(`{"text": ..., "data": ..., "metadata": ...}`); its contents come from the
external handler and are opaque to the orchestrator. -/
structure ItemResult where
  text : String
  data : Json
  metadata : Json

/-- The `BatchItem`. -/
structure BatchItem where
  item_id : String
  file_path : String
  status : JobStatus := .pending
  result : Option ItemResult := none
  error : Option String := none
  processing_time_ms : Option Nat := none

/-- The `BatchJob` (timestamps as abstract ticks). -/
structure BatchJob where
  job_id : String
  task_type : String
  items : List BatchItem
  status : JobStatus := .pending
  created_at : Nat := 0
  started_at : Option Nat := none
  completed_at : Option Nat := none
  options : List (String × Json) := []

/-- The `BatchJob.total_items`. -/
def BatchJob.total_items (j : BatchJob) : Nat := j.items.length

/-- The `BatchJob.processed_items`: items whose status is COMPLETED or FAILED. -/
def BatchJob.processed_items (j : BatchJob) : Nat :=
  (j.items.filter fun it =>
    it.status = JobStatus.completed ∨ it.status = JobStatus.failed).length

/-- The `BatchJob.failed_items`. -/
def BatchJob.failed_items (j : BatchJob) : Nat :=
  (j.items.filter fun it => it.status = JobStatus.failed).length

/-- The `BatchJob.progress` (percentage; exact rationals stand in for floats). -/
def BatchJob.progress (j : BatchJob) : ℚ :=
  if j.total_items = 0 then 0
  else (j.processed_items : ℚ) / (j.total_items : ℚ) * 100

/-- The `BatchProcessor.create_job`: one PENDING item per path; uuid generation is
external, so the fresh ids arrive as parameters. -/
def create_job (jobId : String) (itemIds : Nat → String) (now : Nat)
    (task_type : String) (file_paths : List String)
    (options : List (String × Json)) : BatchJob :=
  { job_id := jobId, task_type := task_type,
    items := (List.range file_paths.length).zip file_paths |>.map fun p =>
      { item_id := itemIds p.1, file_path := p.2 },
    created_at := now, options := options }

/-- Rejections of `create_job_from_folder` (`raise ValueError(...)`). -/
inductive FolderError where
  | notADirectory : FolderError
  | noFilesFound : FolderError
deriving DecidableEq

/-- The `BatchProcessor.create_job_from_folder`: directory inspection and globbing
are external, so the directory check and the matched file list arrive as
parameters; an empty match set is rejected before any job is created. -/
def create_job_from_folder (isDir : Bool) (matchedFiles : List String)
    (jobId : String) (itemIds : Nat → String) (now : Nat)
    (task_type : String) (options : List (String × Json)) :
    Except FolderError BatchJob :=
  if !isDir then .error .notADirectory
  else if matchedFiles.isEmpty then .error .noFilesFound
  else .ok (create_job jobId itemIds now task_type matchedFiles options)

/-- The externally determined outcome of processing one item: the handler
chain either produces a result record or raises, and the wall-clock duration
is measured outside the model. -/
structure ItemOutcome where
  res : Except String ItemResult
  elapsedMs : Nat

/-- The `BatchProcessor._process_item`: on success the result is stored and the
item completes; on any exception the message is stored and the item fails;
the duration is recorded in both cases (`finally`). -/
def proc_item (it : BatchItem) (o : ItemOutcome) : BatchItem :=
  match o.res with
  | .ok r =>
    { it with status := .completed, result := some r,
              processing_time_ms := some o.elapsedMs }
  | .error e =>
    { it with status := .failed, error := some e,
              processing_time_ms := some o.elapsedMs }

/-- The job-level status aggregation at the end of `process_job`. -/
def agg_status (items : List BatchItem) : JobStatus :=
  if items.all fun it => decide (it.status = JobStatus.completed) then .completed
  else if items.all fun it => decide (it.status = JobStatus.failed) then .failed
  else .completed

/-- The `BatchProcessor.process_job` on a job, given the per-item outcomes.  The
items run concurrently but each worker owns its item's state, so the state
after the `await asyncio.gather` join is the per-item update applied
pointwise; the job is then stamped and its status aggregated. -/
def process_job (t1 t2 : Nat) (job : BatchJob) (outcomes : List ItemOutcome) :
    BatchJob :=
  let items2 := List.zipWith proc_item job.items outcomes
  { job with status := agg_status items2, items := items2,
             started_at := some t1, completed_at := some t2 }

/-- First-match association lookup (the job table `self._jobs`). -/
def assocGet : List (String × BatchJob) → String → Option BatchJob
  | [], _ => none
  | (k, j) :: rest, id => if k = id then some j else assocGet rest id

/-- Rebind an id in the job table (the in-place mutation of the job object
held by the dict). -/
def setJob : List (String × BatchJob) → String → BatchJob →
    List (String × BatchJob)
  | [], _, _ => []
  | (k, j) :: rest, id, nj =>
    if k = id then (k, nj) :: setJob rest id nj else (k, j) :: setJob rest id nj

/-- The `BatchProcessor.cancel_job`: true and CANCELLED only from PENDING; any
other current status (or a missing job) returns false and leaves the job
table untouched. -/
def cancel_job (table : List (String × BatchJob)) (id : String) :
    Bool × List (String × BatchJob) :=
  match assocGet table id with
  | none => (false, table)
  | some job =>
    if job.status = JobStatus.pending then
      (true, setJob table id { job with status := JobStatus.cancelled })
    else (false, table)

/-! ## Concrete inputs and encodings used by the statements below -/

/-- The `true` iff the modelled computation returned instead of raising. -/
def exceptOk {ε α : Type} : Except ε α → Bool
  | .ok _ => true
  | .error _ => false

/-- The list encoding `[x1, y1, x2, y2]` of a coordinate quadruple. -/
def encList (a b c d : Nat) : List Char :=
  '[' :: (numeral a ++ ',' :: ' ' ::
    (numeral b ++ ',' :: ' ' :: (numeral c ++ ',' :: ' ' :: (numeral d ++ [']']))))

/-- The tuple encoding `(x1, y1, x2, y2)` of a coordinate quadruple. -/
def encTuple (a b c d : Nat) : List Char :=
  '(' :: (numeral a ++ ',' :: ' ' ::
    (numeral b ++ ',' :: ' ' :: (numeral c ++ ',' :: ' ' :: (numeral d ++ [')']))))

/-- The object encoding `{"x1": a, "y1": b, "x2": c, "y2": d}`. -/
def encObjBox (a b c d : Nat) : List Char :=
  '{' :: '"' :: 'x' :: '1' :: '"' :: ':' :: ' ' :: (numeral a ++ ',' :: ' ' ::
    '"' :: 'y' :: '1' :: '"' :: ':' :: ' ' :: (numeral b ++ ',' :: ' ' ::
      '"' :: 'x' :: '2' :: '"' :: ':' :: ' ' :: (numeral c ++ ',' :: ' ' ::
        '"' :: 'y' :: '2' :: '"' :: ':' :: ' ' :: (numeral d ++ ['}']))))

/-- A fenced code block whose body is the bare integer `42`
(`parse_json_from_markdown` returns it although it is not a dict). -/
def c8Text : List Char := tagJson ++ ('\n' :: '4' :: '2' :: '\n' :: tick3)

/-- A JSON object with no box content followed by a labelled-box line
(JSON parsing succeeds truthily, so the line pattern is never consulted). -/
def c9Text : List Char :=
  ('{' :: "\"note\": \"hi\"".toList ++ ['}']) ++
    '\n' :: "box1: (10, 20, 30, 40)".toList

/-- A text consisting only of a labelled-box line. -/
def c9LineText : List Char := "box1: (10, 20, 30, 40)".toList

/-- A fixed handler result used to instantiate batch scenarios. -/
def sampleResult : ItemResult := ⟨"text", .null, .null⟩

/-- A four-item PENDING job (the claim's concrete batch scenario). -/
def job4 : BatchJob :=
  { job_id := "job-4", task_type := "ocr",
    items :=
      [⟨"i1", "f1", .pending, none, none, none⟩,
       ⟨"i2", "f2", .pending, none, none, none⟩,
       ⟨"i3", "f3", .pending, none, none, none⟩,
       ⟨"i4", "f4", .pending, none, none, none⟩] }

/-- A PENDING job used for the cancellation scenario. -/
def c2Job : BatchJob := { job_id := "job-a", task_type := "ocr", items := [] }

/-! # Theorems

Helper lemmas first, then one theorem per claim (with witnesses and
counterexamples where required). -/

/-! ## Helper lemmas: exception discipline of the parsers -/

/-- The `jsonLoads` only ever raises `JSONDecodeError`. -/
theorem jsonLoads_error_eq (l : List Char) (e : PyExc)
    (h : jsonLoads l = .error e) : e = .jsonDecodeError := by
  unfold jsonLoads at h
  cases hj : jsonParse l <;> rw [hj] at h <;> simp_all

/-- The object candidate loop catches everything its body can raise. -/
theorem tryCandsObj_isOk : ∀ cands, exceptOk (tryCandsObj cands) = true
  | [] => rfl
  | cand :: rest => by
    simp only [tryCandsObj]
    cases hl : jsonLoads (cleanObjCand cand) with
    | ok v => rfl
    | error e =>
      rw [jsonLoads_error_eq _ _ hl]
      simpa using tryCandsObj_isOk rest

/-- The array candidate loop catches everything its body can raise. -/
theorem tryCandsArr_isOk : ∀ cands, exceptOk (tryCandsArr cands) = true
  | [] => rfl
  | cand :: rest => by
    simp only [tryCandsArr]
    cases hl : jsonLoads (cleanArrCand cand) with
    | ok v =>
      cases v <;> first | rfl | simpa using tryCandsArr_isOk rest
    | error e =>
      rw [jsonLoads_error_eq _ _ hl]
      simpa using tryCandsArr_isOk rest

/-- The `parse_json_from_markdown` never raises. -/
theorem pjfm_isOk (t : List Char) :
    exceptOk (parse_json_from_markdown t) = true :=
  tryCandsObj_isOk _

/-- The `parse_json_array_from_markdown` never raises. -/
theorem pja_isOk (t : List Char) :
    exceptOk (parse_json_array_from_markdown t) = true :=
  tryCandsArr_isOk _

/-- The `parse_bounding_box` never raises: its `except` clause lists every
exception kind the `try` block can produce. -/
theorem pbb_isOk (t : List Char) : exceptOk (parse_bounding_box t) = true := by
  unfold parse_bounding_box
  cases h : bboxTryPhase t with
  | ok o => cases o <;> rfl
  | error e => cases e <;> simp [exceptOk]

/-- The `parse_json_from_markdown` always returns a value (isOk unfolded). -/
theorem pjfm_exists_ok (t : List Char) :
    ∃ jd, parse_json_from_markdown t = .ok jd := by
  have h := pjfm_isOk t
  cases hj : parse_json_from_markdown t with
  | ok v => exact ⟨v, rfl⟩
  | error e => rw [hj] at h; simp [exceptOk] at h

/-- The `parse_json_array_from_markdown` always returns a value. -/
theorem pja_exists_ok (t : List Char) :
    ∃ ja, parse_json_array_from_markdown t = .ok ja := by
  have h := pja_isOk t
  cases hj : parse_json_array_from_markdown t with
  | ok v => exact ⟨v, rfl⟩
  | error e => rw [hj] at h; simp [exceptOk] at h

/-- The `parse_coordinates` never raises. -/
theorem pc_isOk (t : List Char) : exceptOk (parse_coordinates t) = true := by
  obtain ⟨jd, hjd⟩ := pjfm_exists_ok t
  obtain ⟨ja, hja⟩ := pja_exists_ok t
  unfold parse_coordinates
  rw [hjd, hja]
  by_cases h1 : truthyOpt jd = true
  · simp [h1, exceptOk]
  · simp only [Bool.not_eq_true] at h1
    by_cases h2 : truthyOptList ja = true <;> simp_all [exceptOk]

/-- C3: for every input string, each of `parse_json_from_markdown`,
`parse_json_array_from_markdown`, `parse_bounding_box`, `parse_coordinates`
and `parse_xml_points` returns normally (a `None`/empty degradation is a
normal return); no exception escapes to the caller. -/
theorem c3_parsers_never_raise (t : List Char) :
    exceptOk (parse_json_from_markdown t) = true ∧
    exceptOk (parse_json_array_from_markdown t) = true ∧
    exceptOk (parse_bounding_box t) = true ∧
    exceptOk (parse_coordinates t) = true ∧
    exceptOk (parse_xml_points t) = true :=
  ⟨pjfm_isOk t, pja_isOk t, pbb_isOk t, pc_isOk t, rfl⟩

/-! ## Helper lemma for the cancellation claim -/

/-- Looking up the cancelled id in the rewritten job table yields the
replacement exactly when the id was bound before. -/
theorem assocGet_setJob (table : List (String × BatchJob)) (id : String)
    (nj : BatchJob) :
    assocGet (setJob table id nj) id =
      match assocGet table id with
      | some _ => some nj
      | none => none := by
  induction table with
  | nil => rfl
  | cons kv rest ih =>
    obtain ⟨k, j⟩ := kv
    by_cases h : k = id
    · simp [setJob, assocGet, h]
    · simp [setJob, assocGet, h, ih]

/-- C2: for a job present in the orchestrator's table, `cancel_job` returns
true and rebinds the job with status CANCELLED (all other fields unchanged,
via the record update) exactly when the job is PENDING; in every other status
it returns false and the table — hence the job and all its items — is
returned entirely unchanged. -/
theorem c2_cancel_job_pending_only (table : List (String × BatchJob))
    (id : String) (job : BatchJob) (h : assocGet table id = some job) :
    ((cancel_job table id).1 = true ↔ job.status = JobStatus.pending) ∧
    (job.status = JobStatus.pending →
      assocGet (cancel_job table id).2 id =
        some { job with status := JobStatus.cancelled }) ∧
    (job.status ≠ JobStatus.pending → (cancel_job table id).2 = table) := by
  unfold cancel_job
  rw [h]
  by_cases hs : job.status = JobStatus.pending
  · simp [hs, assocGet_setJob, h]
  · simp [hs]

/-- C2 witness: the scenario run on a one-job table holding a PENDING job. -/
theorem c2_cancel_job_pending_only_witness :
    (cancel_job [("job-a", c2Job)] "job-a").1 = true ∧
    assocGet (cancel_job [("job-a", c2Job)] "job-a").2 "job-a" =
      some { c2Job with status := JobStatus.cancelled } := by
  have h := c2_cancel_job_pending_only [("job-a", c2Job)] "job-a" c2Job rfl
  exact ⟨h.1.mpr rfl, h.2.1 rfl⟩

/-- C10: `create_job` accepts an empty input list, producing a zero-item job
whose progress is 0; `process_job` on it completes immediately (the
all-COMPLETED check is vacuously true); and only the from-folder constructor
rejects the zero-input case while accepting any nonempty match set. -/
theorem c10_empty_job (jobId : String) (itemIds : Nat → String) (now : Nat)
    (task : String) (opts : List (String × Json)) (t1 t2 : Nat)
    (f : String) (fs : List String) :
    (create_job jobId itemIds now task [] opts).items = [] ∧
    (create_job jobId itemIds now task [] opts).progress = 0 ∧
    (process_job t1 t2 (create_job jobId itemIds now task [] opts) []).status =
      JobStatus.completed ∧
    create_job_from_folder true [] jobId itemIds now task opts =
      .error FolderError.noFilesFound ∧
    create_job_from_folder true (f :: fs) jobId itemIds now task opts =
      .ok (create_job jobId itemIds now task (f :: fs) opts) :=
  ⟨rfl, rfl, rfl, rfl, rfl⟩

/-- C1: after `process_job` the job status is COMPLETED when every item
completed, FAILED only when every item failed, COMPLETED for any mixed
outcome; and in the concrete 4-item run where items 2 and 4 fail,
`total_items = 4`, `processed_items = 4`, `failed_items = 2`, the failed
items carry a non-null error, the other two a non-null result, and the job
is COMPLETED. -/
theorem c1_process_job_status (t1 t2 : Nat) (job : BatchJob)
    (outcomes : List ItemOutcome) (r1 r3 : ItemResult) (e2 e4 : String)
    (m : Nat) :
    ((((process_job t1 t2 job outcomes).items.all fun it =>
        decide (it.status = JobStatus.completed)) = true →
      (process_job t1 t2 job outcomes).status = JobStatus.completed) ∧
     ((process_job t1 t2 job outcomes).status = JobStatus.failed →
      ((process_job t1 t2 job outcomes).items.all fun it =>
        decide (it.status = JobStatus.failed)) = true) ∧
     (((process_job t1 t2 job outcomes).items.all fun it =>
        decide (it.status = JobStatus.completed)) = false →
      ((process_job t1 t2 job outcomes).items.all fun it =>
        decide (it.status = JobStatus.failed)) = false →
      (process_job t1 t2 job outcomes).status = JobStatus.completed)) ∧
    ((process_job t1 t2 job4
        [⟨.ok r1, m⟩, ⟨.error e2, m⟩, ⟨.ok r3, m⟩, ⟨.error e4, m⟩]).total_items
        = 4 ∧
     (process_job t1 t2 job4
        [⟨.ok r1, m⟩, ⟨.error e2, m⟩, ⟨.ok r3, m⟩, ⟨.error e4, m⟩]).processed_items
        = 4 ∧
     (process_job t1 t2 job4
        [⟨.ok r1, m⟩, ⟨.error e2, m⟩, ⟨.ok r3, m⟩, ⟨.error e4, m⟩]).failed_items
        = 2 ∧
     (process_job t1 t2 job4
        [⟨.ok r1, m⟩, ⟨.error e2, m⟩, ⟨.ok r3, m⟩, ⟨.error e4, m⟩]).items.map
          (fun it => it.error) = [none, some e2, none, some e4] ∧
     (process_job t1 t2 job4
        [⟨.ok r1, m⟩, ⟨.error e2, m⟩, ⟨.ok r3, m⟩, ⟨.error e4, m⟩]).items.map
          (fun it => it.result) = [some r1, none, some r3, none] ∧
     (process_job t1 t2 job4
        [⟨.ok r1, m⟩, ⟨.error e2, m⟩, ⟨.ok r3, m⟩, ⟨.error e4, m⟩]).status
        = JobStatus.completed) := by
  constructor
  · refine ⟨?_, ?_, ?_⟩ <;>
      simp only [process_job, agg_status] <;> intro h
    · simp [h]
    · by_cases h1 : ((List.zipWith proc_item job.items outcomes).all fun it =>
        decide (it.status = JobStatus.completed)) = true
      · simp [h1] at h
      · by_cases h2 : ((List.zipWith proc_item job.items outcomes).all fun it =>
          decide (it.status = JobStatus.failed)) = true
        · exact h2
        · simp [h1, h2] at h
    · intro h2
      simp [h, h2]
  · exact ⟨rfl, rfl, rfl, rfl, rfl, rfl⟩

/-- C1 witness: the aggregation conjuncts applied to concrete runs (an
all-success two-item job and the mixed four-item scenario). -/
theorem c1_process_job_status_witness :
    (process_job 0 1 job4
      [⟨.ok sampleResult, 5⟩, ⟨.error "boom2", 5⟩, ⟨.ok sampleResult, 5⟩,
       ⟨.error "boom4", 5⟩]).status = JobStatus.completed ∧
    (process_job 0 1 job4
      [⟨.ok sampleResult, 5⟩, ⟨.ok sampleResult, 5⟩, ⟨.ok sampleResult, 5⟩,
       ⟨.ok sampleResult, 5⟩]).status = JobStatus.completed := by
  constructor
  · exact (c1_process_job_status 0 1 job4
      [⟨.ok sampleResult, 5⟩, ⟨.error "boom2", 5⟩, ⟨.ok sampleResult, 5⟩,
       ⟨.error "boom4", 5⟩] sampleResult sampleResult "boom2" "boom4" 5).1.2.2
      rfl rfl
  · exact (c1_process_job_status 0 1 job4
      [⟨.ok sampleResult, 5⟩, ⟨.ok sampleResult, 5⟩, ⟨.ok sampleResult, 5⟩,
       ⟨.ok sampleResult, 5⟩] sampleResult sampleResult "x" "y" 5).1.1 rfl

/-- C8: the claim that `parse_json_from_markdown` returns only `None` or a
dict fails on the code: a fenced bare integer is returned as-is (the function
never checks the loaded value's shape, contradicting its own docstring and
`Optional[Dict]` annotation). -/
theorem c8_parse_object_shape_bug :
    parse_json_from_markdown c8Text = .ok (some (Json.num 42)) ∧
    (∀ kvs, Json.num 42 ≠ Json.obj kvs) :=
  ⟨rfl, fun _ h => Json.noConfusion h⟩

/-! ## C4: per-line mismatch handling in `validate_total_calculation` -/

/-- A line item with quantity, unit price and amount all positive and a
mismatch beyond tolerance contributes its finding (with 1-based index) to the
per-line scan. -/
theorem lineScan_mem (tol : ℚ) :
    ∀ (items : List (List (String × PyVal))) (start i : Nat)
      (item : List (String × PyVal)),
      items.get? i = some item →
      (0 < _to_float (dGet item "quantity" (.num 1)) ∧
       0 < _to_float (dGet item "unit_price" (.num 0)) ∧
       0 < _to_float (dGet item "amount" (.num 0)) ∧
       tol < ratAbs (_to_float (dGet item "quantity" (.num 1)) *
              _to_float (dGet item "unit_price" (.num 0)) -
              _to_float (dGet item "amount" (.num 0)))) →
      VMsg.lineMismatch (start + i + 1)
        (_to_float (dGet item "quantity" (.num 1)) *
         _to_float (dGet item "unit_price" (.num 0)))
        (_to_float (dGet item "amount" (.num 0))) ∈ (lineScan tol start items).2
  | [], _, i, item, h, _ => by simp at h
  | it :: rest, start, 0, item, h, hc => by
    simp only [List.get?] at h
    cases h
    simp only [lineScan]
    rw [if_pos hc]
    exact List.mem_append_left _ (List.mem_singleton.mpr rfl)
  | it :: rest, start, i + 1, item, h, hc => by
    have ih := lineScan_mem tol rest (start + 1) i item (by simpa using h) hc
    have harith : start + (i + 1) + 1 = start + 1 + i + 1 := by omega
    rw [harith]
    simp only [lineScan]
    exact List.mem_append_right _ ih

/-- C4 counterexample: a single line item with quantity 2, unit price 10 and
amount 25 (no summary) puts the mismatch into `errors` — not a warning — and
makes the result invalid, refuting the claim that errors stay empty and
`is_valid` stays true. -/
theorem c4_line_mismatch_counterexample :
    (validate_total_calculation
      [[("quantity", .num 2), ("unit_price", .num 10), ("amount", .num 25)]]
      [] (1/100)).errors = [VMsg.lineMismatch 1 20 25] ∧
    (validate_total_calculation
      [[("quantity", .num 2), ("unit_price", .num 10), ("amount", .num 25)]]
      [] (1/100)).is_valid = false := by
  have hq : dGet [("quantity", PyVal.num 2), ("unit_price", PyVal.num 10),
      ("amount", PyVal.num 25)] "quantity" (.num 1) = PyVal.num 2 := by
    simp [dGet]
  have hu : dGet [("quantity", PyVal.num 2), ("unit_price", PyVal.num 10),
      ("amount", PyVal.num 25)] "unit_price" (.num 0) = PyVal.num 10 := by
    simp [dGet]
  have ha : dGet [("quantity", PyVal.num 2), ("unit_price", PyVal.num 10),
      ("amount", PyVal.num 25)] "amount" (.num 0) = PyVal.num 25 := by
    simp [dGet]
  have hscan : lineScan (1/100) 0
      [[("quantity", PyVal.num 2), ("unit_price", PyVal.num 10),
        ("amount", PyVal.num 25)]] = (25, [VMsg.lineMismatch 1 20 25]) := by
    simp only [lineScan, hq, hu, ha, _to_float]
    norm_num [ratAbs]
  refine ⟨?_, ?_⟩ <;>
    · simp only [validate_total_calculation, hscan, dGet, _to_float]
      norm_num

/-- C4 (amended): for every line item with quantity, unit price and amount
all present and positive, a mismatch between quantity×unit_price and amount
beyond the tolerance produces an **error** — not a warning — referencing the
1-based item index, and such a per-line mismatch makes the result invalid
(`errors` nonempty, `is_valid` false). -/
theorem c4_line_mismatch_is_error (tol : ℚ)
    (items : List (List (String × PyVal))) (summary : List (String × PyVal))
    (i : Nat) (item : List (String × PyVal))
    (hget : items.get? i = some item)
    (hq : 0 < _to_float (dGet item "quantity" (.num 1)))
    (hp : 0 < _to_float (dGet item "unit_price" (.num 0)))
    (ha : 0 < _to_float (dGet item "amount" (.num 0)))
    (hm : tol < ratAbs (_to_float (dGet item "quantity" (.num 1)) *
                 _to_float (dGet item "unit_price" (.num 0)) -
                 _to_float (dGet item "amount" (.num 0)))) :
    VMsg.lineMismatch (i + 1)
      (_to_float (dGet item "quantity" (.num 1)) *
       _to_float (dGet item "unit_price" (.num 0)))
      (_to_float (dGet item "amount" (.num 0))) ∈
      (validate_total_calculation items summary tol).errors ∧
    (validate_total_calculation items summary tol).is_valid = false := by
  have hmem := lineScan_mem tol items 0 i item hget ⟨hq, hp, ha, hm⟩
  rw [show (0 : Nat) + i + 1 = i + 1 by omega] at hmem
  have hmem2 : VMsg.lineMismatch (i + 1)
      (_to_float (dGet item "quantity" (.num 1)) *
       _to_float (dGet item "unit_price" (.num 0)))
      (_to_float (dGet item "amount" (.num 0))) ∈
      (validate_total_calculation items summary tol).errors := by
    simp only [validate_total_calculation]
    exact List.mem_append_left _ (List.mem_append_left _ hmem)
  refine ⟨hmem2, ?_⟩
  simp only [validate_total_calculation] at hmem2 ⊢
  exact List.isEmpty_eq_false.mpr (List.ne_nil_of_mem hmem2)

/-- C4 witness: the amended statement instantiated on the concrete mismatch. -/
theorem c4_line_mismatch_is_error_witness :
    VMsg.lineMismatch 1
      (_to_float (dGet [("quantity", PyVal.num 2), ("unit_price", PyVal.num 10),
                        ("amount", PyVal.num 25)] "quantity" (.num 1)) *
       _to_float (dGet [("quantity", PyVal.num 2), ("unit_price", PyVal.num 10),
                        ("amount", PyVal.num 25)] "unit_price" (.num 0)))
      (_to_float (dGet [("quantity", PyVal.num 2), ("unit_price", PyVal.num 10),
                        ("amount", PyVal.num 25)] "amount" (.num 0))) ∈
      (validate_total_calculation
        [[("quantity", .num 2), ("unit_price", .num 10), ("amount", .num 25)]]
        [] (1/100)).errors ∧
    (validate_total_calculation
      [[("quantity", .num 2), ("unit_price", .num 10), ("amount", .num 25)]]
      [] (1/100)).is_valid = false :=
by
  have hq : dGet [("quantity", PyVal.num 2), ("unit_price", PyVal.num 10),
      ("amount", PyVal.num 25)] "quantity" (.num 1) = PyVal.num 2 := by
    simp [dGet]
  have hu : dGet [("quantity", PyVal.num 2), ("unit_price", PyVal.num 10),
      ("amount", PyVal.num 25)] "unit_price" (.num 0) = PyVal.num 10 := by
    simp [dGet]
  have ha : dGet [("quantity", PyVal.num 2), ("unit_price", PyVal.num 10),
      ("amount", PyVal.num 25)] "amount" (.num 0) = PyVal.num 25 := by
    simp [dGet]
  exact c4_line_mismatch_is_error (1/100)
    [[("quantity", .num 2), ("unit_price", .num 10), ("amount", .num 25)]]
    [] 0
    [("quantity", .num 2), ("unit_price", .num 10), ("amount", .num 25)]
    rfl (by rw [hq]; norm_num [_to_float]) (by rw [hu]; norm_num [_to_float])
    (by rw [ha]; norm_num [_to_float])
    (by rw [hq, hu, ha]; norm_num [_to_float, ratAbs])

/-! ## C5: the two date parsers do not accept the same language -/

/-- A first-success over a format list implies the corresponding `any`. -/
theorem firstFormatDate_any (v : List Char) :
    ∀ fmts, (firstFormatDate v fmts).isSome = true →
      (fmts.any fun f => (strptimeD f (pyStrip v)).isSome) = true
  | [], h => by simp [firstFormatDate] at h
  | f :: rest, h => by
    simp only [firstFormatDate] at h
    cases hf : strptimeD f (pyStrip v) with
    | some d => simp [List.any_cons, hf]
    | none =>
      rw [hf] at h
      simp [List.any_cons, firstFormatDate_any v rest h]

/-- C5 counterexample: `"15 Jan 2024"` is accepted by
`validators.validate_date` (via its extra `"%d %b %Y"` format) but rejected
by `cross_validation._parse_date`, refuting the claimed equivalence. -/
theorem c5_date_parsers_disagree :
    validate_date ("15 Jan 2024".toList) = true ∧
    cross_parse_date ("15 Jan 2024".toList) = none := by
  constructor <;> decide

/-- C5 (amended): the containment holds in one direction only — every string
`_parse_date` accepts is accepted by `validate_date` (the seven formats of
`_parse_date` are an initial segment of `validate_date`'s eight), while
`validate_date` additionally accepts `"%d %b %Y"` dates. -/
theorem c5_cross_parse_subsumed (v : List Char)
    (h : (cross_parse_date v).isSome = true) : validate_date v = true := by
  have hany := firstFormatDate_any v crossFormats h
  have hv : validatorFormats = crossFormats ++ [fmtdbY] := rfl
  simp only [validate_date, hv, List.any_append]
  simp [hany]

/-- C5 witness: an ISO date accepted by both parsers. -/
theorem c5_cross_parse_subsumed_witness :
    (cross_parse_date ("2024-01-15".toList)).isSome = true ∧
    validate_date ("2024-01-15".toList) = true :=
  ⟨by decide, c5_cross_parse_subsumed ("2024-01-15".toList) (by decide)⟩

/-! ## C9: when the labelled-box fallback actually runs -/

set_option maxRecDepth 10000 in
/-- C9 counterexample: on a text holding a JSON object with no box content
followed by a labelled-box line, `parse_coordinates` returns the empty list
without consulting the line pattern, although the line pattern matches one
entry — refuting the claim that the fallback runs whenever JSON parsing
yields no labelled-box entries. -/
theorem c9_no_fallback_counterexample :
    parse_coordinates c9Text = .ok [] ∧
    lineEntries c9Text =
      [Json.obj [(keyLabel, .str ('}' :: '\n' :: "box1".toList)),
                 (keyBbox, .obj [(keyX1, .num 10), (keyY1, .num 20),
                                 (keyX2, .num 30), (keyY2, .num 40)])]] := by
  constructor
  · rfl
  · rfl

/-- C9 (amended): the line-oriented fallback runs exactly when the object
parse result and the array parse result are both falsy; then
`parse_coordinates` returns one `{label, bbox}` entry per pattern occurrence.
A truthy object result suppresses the fallback even when it contributes no
labelled-box entries. -/
theorem c9_fallback_condition (t : List Char) (jd : Option Json)
    (ja : Option (List Json))
    (h1 : parse_json_from_markdown t = .ok jd)
    (h2 : truthyOpt jd = false)
    (h3 : parse_json_array_from_markdown t = .ok ja)
    (h4 : truthyOptList ja = false) :
    parse_coordinates t = .ok (lineEntries t) := by
  unfold parse_coordinates
  rw [h1, h3]
  simp [h2, h4]

/-- C9 witness: a bare labelled-box line, on which both JSON parses are falsy
and the fallback produces the entry. -/
theorem c9_fallback_condition_witness :
    parse_json_from_markdown c9LineText = .ok none ∧
    parse_json_array_from_markdown c9LineText = .ok none ∧
    parse_coordinates c9LineText = .ok (lineEntries c9LineText) ∧
    lineEntries c9LineText ≠ [] :=
  ⟨rfl, rfl, c9_fallback_condition c9LineText none none rfl rfl rfl rfl,
   fun h => List.noConfusion h⟩

/-! ## Numeral and digit-run lemmas (for the universally quantified
bounding-box encodings) -/

/-- The `numeralAux` does not depend on the fuel once it is sufficient. -/
theorem numeralAux_fuel (f : Nat) :
    ∀ g n, n < f → n < g → numeralAux f n = numeralAux g n := by
  induction f with
  | zero => intro g n h; omega
  | succ f ih =>
    intro g n hf hg
    cases g with
    | zero => omega
    | succ g =>
      simp only [numeralAux]
      by_cases h10 : n < 10
      · simp [h10]
      · have hn : 0 < n := by omega
        have hd : n / 10 < n := Nat.div_lt_self hn (by omega)
        simp only [h10, if_false]
        rw [ih g (n / 10) (by omega) (by omega)]

/-- Recurrence for `numeral`. -/
theorem numeral_rec (n : Nat) :
    numeral n =
      if n < 10 then [digitChar10 n]
      else numeral (n / 10) ++ [digitChar10 (n % 10)] := by
  show numeralAux (n + 1) n = _
  by_cases h10 : n < 10
  · simp [numeralAux, h10]
  · have hn : 0 < n := by omega
    have hd : n / 10 < n := Nat.div_lt_self hn (by omega)
    simp only [numeralAux, h10, if_false]
    rw [numeralAux_fuel n (n / 10 + 1) (n / 10) (by omega) (by omega)]
    rfl

/-- Digit characters are digits. -/
theorem digitChar10_isDigit (n : Nat) (h : n < 10) :
    (digitChar10 n).isDigit = true := by
  interval_cases n <;> decide

/-- Digit characters decode to their value. -/
theorem digitVal_digitChar10 (n : Nat) (h : n < 10) :
    digitVal (digitChar10 n) = n := by
  interval_cases n <;> decide

/-- Every character of a numeral is a digit. -/
theorem numeral_all_digits (n : Nat) :
    ∀ c ∈ numeral n, c.isDigit = true := by
  induction n using Nat.strong_induction_on with
  | _ n ih =>
    rw [numeral_rec]
    by_cases h10 : n < 10
    · simp only [h10, if_true]
      intro c hc
      rw [List.mem_singleton] at hc
      rw [hc]
      exact digitChar10_isDigit n h10
    · have hn : 0 < n := by omega
      have hd : n / 10 < n := Nat.div_lt_self hn (by omega)
      simp only [h10, if_false]
      intro c hc
      rcases List.mem_append.mp hc with h | h
      · exact ih (n / 10) hd c h
      · rw [List.mem_singleton] at h
        rw [h]
        exact digitChar10_isDigit (n % 10) (Nat.mod_lt n (by omega))

/-- Numerals decompose as a digit head plus a tail. -/
theorem numeral_cons (n : Nat) :
    ∃ c cs, numeral n = c :: cs ∧ c.isDigit = true := by
  induction n using Nat.strong_induction_on with
  | _ n ih =>
    rw [numeral_rec]
    by_cases h10 : n < 10
    · exact ⟨digitChar10 n, [], by simp [h10], digitChar10_isDigit n h10⟩
    · have hn : 0 < n := by omega
      have hd : n / 10 < n := Nat.div_lt_self hn (by omega)
      obtain ⟨c, cs, hc, hdig⟩ := ih (n / 10) hd
      exact ⟨c, cs ++ [digitChar10 (n % 10)], by simp [h10, hc], hdig⟩

/-- Numerals are nonempty. -/
theorem numeral_length_pos (n : Nat) : 1 ≤ (numeral n).length := by
  obtain ⟨c, cs, hc, _⟩ := numeral_cons n
  rw [hc]
  simp

/-- The `Prop`-level guard: the scan stops here (empty or a non-digit head). -/
def noDigitHead : List Char → Prop
  | [] => True
  | c :: _ => c.isDigit = false

/-- Consuming a numeral shifts the accumulator. -/
theorem munchDigits_numeral_acc (n : Nat) :
    ∀ acc rest, munchDigits acc (numeral n ++ rest) =
      munchDigits (acc * 10 ^ (numeral n).length + n) rest := by
  induction n using Nat.strong_induction_on with
  | _ n ih =>
    intro acc rest
    by_cases h10 : n < 10
    · rw [numeral_rec, if_pos h10]
      simp only [List.singleton_append, List.length_cons, List.length_nil]
      simp only [munchDigits, digitChar10_isDigit n h10, if_true,
        digitVal_digitChar10 n h10]
      norm_num
    · have hn : 0 < n := by omega
      have hd : n / 10 < n := Nat.div_lt_self hn (by omega)
      rw [numeral_rec, if_neg h10, List.append_assoc,
        ih (n / 10) hd acc ([digitChar10 (n % 10)] ++ rest)]
      simp only [List.singleton_append, List.length_append, List.length_cons,
        List.length_nil]
      have hm10 : n % 10 < 10 := Nat.mod_lt n (by omega)
      simp only [munchDigits, digitChar10_isDigit (n % 10) hm10, if_true,
        digitVal_digitChar10 (n % 10) hm10]
      congr 1
      rw [Nat.add_zero, pow_succ, ← Nat.mul_assoc]
      generalize acc * 10 ^ (numeral (n / 10)).length = M
      omega

/-- A maximal digit run ends at a non-digit. -/
theorem munchDigits_stop (acc : Nat) (rest : List Char) (h : noDigitHead rest) :
    munchDigits acc rest = (acc, rest) := by
  cases rest with
  | nil => rfl
  | cons c cs =>
    simp only [noDigitHead] at h
    simp [munchDigits, h]

/-- Reading back a numeral yields its value. -/
theorem munchDigits_numeral (n : Nat) (rest : List Char) (h : noDigitHead rest) :
    munchDigits 0 (numeral n ++ rest) = (n, rest) := by
  rw [munchDigits_numeral_acc, Nat.zero_mul, Nat.zero_add,
    munchDigits_stop n rest h]

/-- The digit-branch core: a numeral head consumed from the middle of a run. -/
theorem munchDigits_numeral_head (n : Nat) (c : Char) (cs rest : List Char)
    (hc : numeral n = c :: cs) (h : noDigitHead rest) :
    munchDigits (digitVal c) (cs ++ rest) = (n, rest) := by
  have h0 := munchDigits_numeral n rest h
  rw [hc] at h0
  have hdig : c.isDigit = true := by
    have := numeral_all_digits n c (by rw [hc]; exact List.mem_cons_self c cs)
    exact this
  simpa [munchDigits, hdig] using h0

/-- The `\d+` at the head of a numeral-led input. -/
theorem matchDigits1_numeral (n : Nat) (rest : List Char) (h : noDigitHead rest) :
    matchDigits1 (numeral n ++ rest) = some (n, rest) := by
  obtain ⟨c, cs, hc, hdig⟩ := numeral_cons n
  rw [hc, List.cons_append]
  simp only [matchDigits1, hdig, if_true]
  rw [munchDigits_numeral_head n c cs rest hc h]

/-! ## Character-class and whitespace lemmas -/

/-- A digit differs from any non-digit character. -/
theorem isDigit_ne (c d : Char) (hc : c.isDigit = true)
    (hd : d.isDigit = false) : ¬(c = d) := fun he => by
  subst he
  rw [hc] at hd
  exact Bool.noConfusion hd

/-- Digits are not JSON whitespace. -/
theorem digit_not_jws (c : Char) (h : c.isDigit = true) :
    isJsonWs c = false := by
  cases hj : isJsonWs c
  · rfl
  · exfalso
    simp only [isJsonWs, Bool.or_eq_true, decide_eq_true_eq] at hj
    rcases hj with ((h1 | h1) | h1) | h1 <;> subst h1 <;> simp at h

/-- Digits are not Python whitespace. -/
theorem digit_not_pws (c : Char) (h : c.isDigit = true) :
    isPyWs c = false := by
  cases hj : isPyWs c
  · rfl
  · exfalso
    simp only [isPyWs, Bool.or_eq_true, decide_eq_true_eq] at hj
    rcases hj with ((((h1 | h1) | h1) | h1) | h1) | h1 <;> subst h1 <;> simp at h

/-- The `skipJWs` stops at a non-whitespace head. -/
theorem skipJWs_nonws (c : Char) (l : List Char) (h : isJsonWs c = false) :
    skipJWs (c :: l) = c :: l := by
  simp [skipJWs, h]

/-- The `skipJWs` passes a space. -/
theorem skipJWs_space (l : List Char) : skipJWs (' ' :: l) = skipJWs l := by
  simp [skipJWs, isJsonWs]

/-- The `skipPWs` stops at a non-whitespace head. -/
theorem skipPWs_nonws (c : Char) (l : List Char) (h : isPyWs c = false) :
    skipPWs (c :: l) = c :: l := by
  simp [skipPWs, h]

/-- The `skipPWs` passes a space. -/
theorem skipPWs_space (l : List Char) : skipPWs (' ' :: l) = skipPWs l := by
  simp [skipPWs, isPyWs]

/-- The `skipJWs` is the identity on a numeral-led input. -/
theorem skipJWs_numeral (n : Nat) (rest : List Char) :
    skipJWs (numeral n ++ rest) = numeral n ++ rest := by
  obtain ⟨c, cs, hc, hdig⟩ := numeral_cons n
  rw [hc, List.cons_append, skipJWs_nonws c _ (digit_not_jws c hdig)]

/-- The `skipPWs` is the identity on a numeral-led input. -/
theorem skipPWs_numeral (n : Nat) (rest : List Char) :
    skipPWs (numeral n ++ rest) = numeral n ++ rest := by
  obtain ⟨c, cs, hc, hdig⟩ := numeral_cons n
  rw [hc, List.cons_append, skipPWs_nonws c _ (digit_not_pws c hdig)]

/-! ## Symbolic evaluation of the JSON reader on the integer encodings -/

/-- The JSON reader on a numeral-led input. -/
theorem jVal_digit (f n : Nat) (rest : List Char) (h : noDigitHead rest) :
    jVal (f + 1) (numeral n ++ rest) = some (.num (Int.ofNat n), rest) := by
  obtain ⟨c, cs, hc, hdig⟩ := numeral_cons n
  rw [hc, List.cons_append]
  simp only [jVal]
  rw [if_neg (isDigit_ne c '{' hdig (by decide)),
      if_neg (isDigit_ne c '[' hdig (by decide)),
      if_neg (isDigit_ne c '"' hdig (by decide)),
      if_pos hdig]
  simp only [munchDigits_numeral_head n c cs rest hc h]

/-- The JSON reader rejects an input starting with `(`. -/
theorem jVal_paren (f : Nat) (l : List Char) : jVal (f + 1) ('(' :: l) = none := by
  simp only [jVal]
  rw [if_neg (by decide : ¬('(' = '{')),
      if_neg (by decide : ¬('(' = '[')),
      if_neg (by decide : ¬('(' = '"')),
      if_neg (by decide : ¬('('.isDigit = true)),
      if_neg (by decide : ¬('(' = '-')),
      if_neg (by decide : ¬('(' = 't')),
      if_neg (by decide : ¬('(' = 'f')),
      if_neg (by decide : ¬('(' = 'n'))]

/-- The `json.loads` rejects the tuple syntax. -/
theorem jsonParse_paren (l : List Char) : jsonParse ('(' :: l) = none := by
  unfold jsonParse
  rw [skipJWs_nonws '(' l (by decide), jVal_paren]

/-- One array element followed by `, ` and more input. -/
theorem jElems_num_comma (f n : Nat) (rest : List Char) (acc : List Json) :
    jElems (f + 2) (numeral n ++ ',' :: ' ' :: rest) acc =
      jElems (f + 1) (skipJWs rest) (acc ++ [.num (Int.ofNat n)]) := by
  rw [show f + 2 = (f + 1) + 1 from rfl]
  simp only [jElems]
  rw [jVal_digit f n (',' :: ' ' :: rest) rfl]
  simp only []
  rw [skipJWs_nonws ',' _ (by decide)]
  simp only [skipJWs_space]

/-- The final array element followed by the closing bracket. -/
theorem jElems_num_close (f n : Nat) (rest : List Char) (acc : List Json) :
    jElems (f + 2) (numeral n ++ ']' :: rest) acc =
      some (.arr (acc ++ [.num (Int.ofNat n)]), rest) := by
  rw [show f + 2 = (f + 1) + 1 from rfl]
  simp only [jElems]
  rw [jVal_digit f n (']' :: rest) rfl]
  simp only []
  rw [skipJWs_nonws ']' _ (by decide)]
  rfl

/-- The JSON reader on the four-element list encoding. -/
theorem jVal_encList (f a b c d : Nat) :
    jVal (f + 9) (encList a b c d) =
      some (.arr [.num (Int.ofNat a), .num (Int.ofNat b), .num (Int.ofNat c),
                  .num (Int.ofNat d)], []) := by
  rw [show f + 9 = (f + 8) + 1 from rfl]
  simp only [encList, jVal]
  rw [if_neg (by decide : ¬('[' = '{')), if_pos trivial]
  obtain ⟨c1, cs1, hc1, hd1⟩ := numeral_cons a
  rw [hc1, List.cons_append, skipJWs_nonws c1 _ (digit_not_jws c1 hd1)]
  split
  · next x r heq =>
    exfalso
    have hc1' : c1 = ']' := by injection heq with h1 h2
    exact isDigit_ne c1 ']' hd1 (by decide) hc1'
  · next x hne =>
    rw [← List.cons_append, ← hc1]
    rw [show f + 8 = (f + 6) + 2 from rfl, jElems_num_comma]
    rw [skipJWs_numeral]
    rw [show f + 6 + 1 = (f + 5) + 2 from rfl, jElems_num_comma]
    rw [skipJWs_numeral]
    rw [show f + 5 + 1 = (f + 4) + 2 from rfl, jElems_num_comma]
    rw [skipJWs_numeral]
    rw [show f + 4 + 1 = (f + 3) + 2 from rfl, jElems_num_close]
    simp

/-- The `json.loads` on the list encoding. -/
theorem jsonParse_encList (a b c d : Nat) :
    jsonParse (encList a b c d) =
      some (.arr [.num (Int.ofNat a), .num (Int.ofNat b), .num (Int.ofNat c),
                  .num (Int.ofNat d)]) := by
  have hlen : 8 ≤ (encList a b c d).length := by
    have ha := numeral_length_pos a
    have hb := numeral_length_pos b
    have hc := numeral_length_pos c
    have hd := numeral_length_pos d
    simp only [encList, List.length_append, List.length_cons]
    omega
  unfold jsonParse
  have hskip : skipJWs (encList a b c d) = encList a b c d := by
    simp only [encList]
    rw [skipJWs_nonws '[' _ (by decide)]
  rw [hskip]
  rw [show (encList a b c d).length + 1 = ((encList a b c d).length - 8) + 9 by
    omega]
  rw [jVal_encList]
  rfl

/-! ## The tuple encoding: `json.loads` fails, the paren regex matches -/

/-- Characters that are not digits do not occur in numerals. -/
theorem not_mem_numeral (c : Char) (h : c.isDigit = false) (n : Nat) :
    c ∉ numeral n := fun hm => by
  rw [numeral_all_digits n c hm] at h
  exact Bool.noConfusion h

/-- A search for a delimited quadruple fails when the opening delimiter is
absent. -/
theorem searchQuad_none (openC closeC : Char) :
    ∀ l, openC ∉ l → searchQuad openC closeC l = none
  | [], _ => rfl
  | c :: cs, h => by
    have hc : ¬(c = openC) :=
      fun he => h (List.mem_cons.mpr (Or.inl he.symm))
    simp only [searchQuad, tryQuad, if_neg hc]
    exact searchQuad_none openC closeC cs
      (fun hm => h (List.mem_cons_of_mem c hm))

/-- The square bracket does not occur in the tuple encoding. -/
theorem not_bracket_mem_encTuple (a b c d : Nat) : '[' ∉ encTuple a b c d := by
  intro hm
  simp only [encTuple, List.mem_cons, List.mem_append, List.mem_singleton] at hm
  rcases hm with h | h | h | h | h | h | h | h | h | h | h | h <;>
    first
      | exact absurd h (by decide)
      | exact not_mem_numeral '[' (by decide) _ h

/-- The `\d+` at the head of a numeral followed by a non-digit character. -/
theorem matchDigits1_numeral_cons (n : Nat) (c : Char) (rest : List Char)
    (h : c.isDigit = false) :
    matchDigits1 (numeral n ++ c :: rest) = some (n, c :: rest) :=
  matchDigits1_numeral n (c :: rest) h

/-- The paren pattern matches the tuple encoding at position 0. -/
theorem searchQuad_encTuple (a b c d : Nat) :
    searchQuad '(' ')' (encTuple a b c d) = some (a, b, c, d) := by
  simp only [encTuple, searchQuad, tryQuad, if_pos trivial]
  rw [matchDigits1_numeral_cons a ',' _ (by decide)]
  simp only [matchCommaGroup]
  rw [skipPWs_space, skipPWs_numeral,
    matchDigits1_numeral_cons b ',' _ (by decide)]
  simp only [matchCommaGroup]
  rw [skipPWs_space, skipPWs_numeral,
    matchDigits1_numeral_cons c ',' _ (by decide)]
  simp only [matchCommaGroup]
  rw [skipPWs_space, skipPWs_numeral,
    matchDigits1_numeral_cons d ')' _ (by decide)]
  rfl

/-- The `parse_bounding_box` on the tuple encoding: the JSON phase raises
`JSONDecodeError`, the bracket pattern finds nothing, and the paren pattern
produces the box. -/
theorem pbb_encTuple (a b c d : Nat) :
    parse_bounding_box (encTuple a b c d) =
      .ok (some ⟨Int.ofNat a, Int.ofNat b, Int.ofNat c, Int.ofNat d⟩) := by
  have h1 : bboxTryPhase (encTuple a b c d) = .error .jsonDecodeError := by
    unfold bboxTryPhase jsonLoads
    have : jsonParse (encTuple a b c d) = none := by
      simp only [encTuple]
      rw [jsonParse_paren]
    rw [this]
  have h2 : bboxRegexPhase (encTuple a b c d) =
      some ⟨Int.ofNat a, Int.ofNat b, Int.ofNat c, Int.ofNat d⟩ := by
    unfold bboxRegexPhase
    rw [searchQuad_none '[' ']' _ (not_bracket_mem_encTuple a b c d),
        searchQuad_encTuple]
    rfl
  unfold parse_bounding_box
  rw [h1, h2]
  rfl

/-- The `parse_bounding_box` on the list encoding: the JSON phase succeeds with a
4-element list and the values coerce with `int(...)`. -/
theorem pbb_encList (a b c d : Nat) :
    parse_bounding_box (encList a b c d) =
      .ok (some ⟨Int.ofNat a, Int.ofNat b, Int.ofNat c, Int.ofNat d⟩) := by
  have h1 : bboxTryPhase (encList a b c d) =
      .ok (some ⟨Int.ofNat a, Int.ofNat b, Int.ofNat c, Int.ofNat d⟩) := by
    unfold bboxTryPhase jsonLoads
    rw [jsonParse_encList]
    rfl
  unfold parse_bounding_box
  rw [h1]

/-! ## The object encoding: symbolic evaluation of the member chain -/

/-- The JSON reader on a numeral followed by a non-digit character. -/
theorem jVal_digit_cons (f n : Nat) (c : Char) (rest : List Char)
    (h : c.isDigit = false) :
    jVal (f + 1) (numeral n ++ c :: rest) =
      some (.num (Int.ofNat n), c :: rest) :=
  jVal_digit f n (c :: rest) h

/-- The `jStr` on an uninterpreted non-quote, non-backslash head. -/
theorem jStr_cons (c : Char) (l : List Char) (h1 : ¬(c = '"'))
    (h2 : ¬(c = '\\')) :
    jStr (c :: l) = (jStr l).map (fun p => (c :: p.1, p.2)) := by
  rw [jStr.eq_def]
  split
  · next x heq => exact absurd heq (by simp)
  · next x r heq =>
    injection heq with ha hb
    exact absurd ha h1
  · next x e r heq =>
    injection heq with ha hb
    exact absurd ha h2
  · next x cc rr hno1 hno2 heq =>
    injection heq with ha hb
    rw [← ha, ← hb]

/-- The `jStr` reads a two-character key up to its closing quote. -/
theorem jStr_key (k1 k2 : Char) (rest : List Char)
    (h1 : ¬(k1 = '"')) (h2 : ¬(k1 = '\\'))
    (h3 : ¬(k2 = '"')) (h4 : ¬(k2 = '\\')) :
    jStr (k1 :: k2 :: '"' :: rest) = some ([k1, k2], rest) := by
  rw [jStr_cons k1 _ h1 h2, jStr_cons k2 _ h3 h4]
  rfl

/-- One `"kk": n, ` member of the object encoding. -/
theorem jMembers_member_comma (f n : Nat) (k1 k2 : Char) (rest : List Char)
    (acc : List (List Char × Json))
    (h1 : ¬(k1 = '"')) (h2 : ¬(k1 = '\\'))
    (h3 : ¬(k2 = '"')) (h4 : ¬(k2 = '\\')) :
    jMembers (f + 2)
      ('"' :: k1 :: k2 :: '"' :: ':' :: ' ' :: (numeral n ++ ',' :: ' ' :: rest))
      acc =
    jMembers (f + 1) (skipJWs rest)
      (acc ++ [([k1, k2], Json.num (Int.ofNat n))]) := by
  rw [show f + 2 = (f + 1) + 1 from rfl]
  simp only [jMembers]
  rw [jStr_key k1 k2 _ h1 h2 h3 h4]
  simp only []
  rw [skipJWs_nonws ':' _ (by decide)]
  simp only []
  rw [skipJWs_space, skipJWs_numeral, jVal_digit_cons f n ',' _ (by decide)]
  simp only []
  rw [skipJWs_nonws ',' _ (by decide)]
  simp only [skipJWs_space]

/-- The final `"kk": n}` member of the object encoding. -/
theorem jMembers_member_close (f n : Nat) (k1 k2 : Char) (rest : List Char)
    (acc : List (List Char × Json))
    (h1 : ¬(k1 = '"')) (h2 : ¬(k1 = '\\'))
    (h3 : ¬(k2 = '"')) (h4 : ¬(k2 = '\\')) :
    jMembers (f + 2)
      ('"' :: k1 :: k2 :: '"' :: ':' :: ' ' :: (numeral n ++ '}' :: rest)) acc =
    some (.obj (acc ++ [([k1, k2], Json.num (Int.ofNat n))]), rest) := by
  rw [show f + 2 = (f + 1) + 1 from rfl]
  simp only [jMembers]
  rw [jStr_key k1 k2 _ h1 h2 h3 h4]
  simp only []
  rw [skipJWs_nonws ':' _ (by decide)]
  simp only []
  rw [skipJWs_space, skipJWs_numeral, jVal_digit_cons f n '}' _ (by decide)]
  simp only []
  rw [skipJWs_nonws '}' _ (by decide)]
  rfl

/-- The JSON reader on the object encoding. -/
theorem jVal_encObj (f a b c d : Nat) :
    jVal (f + 12) (encObjBox a b c d) =
      some (.obj [(keyX1, .num (Int.ofNat a)), (keyY1, .num (Int.ofNat b)),
                  (keyX2, .num (Int.ofNat c)), (keyY2, .num (Int.ofNat d))],
            []) := by
  rw [show f + 12 = (f + 11) + 1 from rfl]
  simp only [encObjBox, jVal, if_pos trivial]
  rw [skipJWs_nonws '"' _ (by decide)]
  split
  · next r heq => injection heq with ha _; exact absurd ha (by decide)
  · next hne =>
    rw [show f + 11 = (f + 9) + 2 from rfl,
      jMembers_member_comma _ _ _ _ _ _ (by decide) (by decide) (by decide)
        (by decide)]
    rw [skipJWs_nonws '"' _ (by decide)]
    rw [show f + 9 + 1 = (f + 8) + 2 from rfl,
      jMembers_member_comma _ _ _ _ _ _ (by decide) (by decide) (by decide)
        (by decide)]
    rw [skipJWs_nonws '"' _ (by decide)]
    rw [show f + 8 + 1 = (f + 7) + 2 from rfl,
      jMembers_member_comma _ _ _ _ _ _ (by decide) (by decide) (by decide)
        (by decide)]
    rw [skipJWs_nonws '"' _ (by decide)]
    rw [show f + 7 + 1 = (f + 6) + 2 from rfl,
      jMembers_member_close _ _ _ _ _ _ (by decide) (by decide) (by decide)
        (by decide)]
    simp [keyX1, keyY1, keyX2, keyY2]

/-- The `json.loads` on the object encoding. -/
theorem jsonParse_encObj (a b c d : Nat) :
    jsonParse (encObjBox a b c d) =
      some (.obj [(keyX1, .num (Int.ofNat a)), (keyY1, .num (Int.ofNat b)),
                  (keyX2, .num (Int.ofNat c)), (keyY2, .num (Int.ofNat d))]) := by
  have hlen : 11 ≤ (encObjBox a b c d).length := by
    have ha := numeral_length_pos a
    have hb := numeral_length_pos b
    have hc := numeral_length_pos c
    have hd := numeral_length_pos d
    simp only [encObjBox, List.length_append, List.length_cons]
    omega
  unfold jsonParse
  have hskip : skipJWs (encObjBox a b c d) = encObjBox a b c d := by
    simp only [encObjBox]
    rw [skipJWs_nonws '{' _ (by decide)]
  rw [hskip]
  rw [show (encObjBox a b c d).length + 1 =
      ((encObjBox a b c d).length - 11) + 12 by omega]
  rw [jVal_encObj]
  rfl

/-- The `parse_bounding_box` on the object encoding: the dict branch extracts the
four corner keys and coerces with `int(...)`. -/
theorem pbb_encObj (a b c d : Nat) :
    parse_bounding_box (encObjBox a b c d) =
      .ok (some ⟨Int.ofNat a, Int.ofNat b, Int.ofNat c, Int.ofNat d⟩) := by
  have h1 : bboxTryPhase (encObjBox a b c d) =
      .ok (some ⟨Int.ofNat a, Int.ofNat b, Int.ofNat c, Int.ofNat d⟩) := by
    unfold bboxTryPhase jsonLoads
    rw [jsonParse_encObj]
    rfl
  unfold parse_bounding_box
  rw [h1]

/-- C7: the three literal encodings of the same coordinate quadruple — the
list `[x1, y1, x2, y2]`, the tuple `(x1, y1, x2, y2)`, and the JSON object
with keys `x1,y1,x2,y2` — all make `parse_bounding_box` return the identical
integer-coerced `{x1, y1, x2, y2}` record. -/
theorem c7_bbox_encodings (a b c d : Nat) :
    parse_bounding_box (encList a b c d) =
      .ok (some ⟨Int.ofNat a, Int.ofNat b, Int.ofNat c, Int.ofNat d⟩) ∧
    parse_bounding_box (encTuple a b c d) =
      .ok (some ⟨Int.ofNat a, Int.ofNat b, Int.ofNat c, Int.ofNat d⟩) ∧
    parse_bounding_box (encObjBox a b c d) =
      .ok (some ⟨Int.ofNat a, Int.ofNat b, Int.ofNat c, Int.ofNat d⟩) :=
  ⟨pbb_encList a b c d, pbb_encTuple a b c d, pbb_encObj a b c d⟩

/-! ## Fence-handling lemmas (for the transparency claim) -/

/-- A literal is a prefix of itself followed by anything. -/
theorem startsWithL_append_self (tag rest : List Char) :
    startsWithL tag (tag ++ rest) = true := by
  induction tag with
  | nil => rfl
  | cons p ps ih => simp [startsWithL, ih]

/-- The first occurrence of a backtick-led tag in a backtick-free prefix
followed by the tag itself. -/
theorem afterFirstTag_mid (t' pre rest : List Char) (hpre : btick ∉ pre) :
    afterFirstTag (btick :: t') (pre ++ ((btick :: t') ++ rest)) = some rest := by
  induction pre with
  | nil =>
    simp only [List.nil_append]
    rw [show (btick :: t') ++ rest = btick :: (t' ++ rest) from rfl]
    simp only [afterFirstTag]
    rw [show btick :: (t' ++ rest) = (btick :: t') ++ rest from rfl,
      startsWithL_append_self]
    simp only [if_true]
    rw [List.drop_left]
  | cons c p ih =>
    have hc : ¬(btick = c) := fun he => hpre (List.mem_cons.mpr (Or.inl he))
    have hp : btick ∉ p := fun hm => hpre (List.mem_cons_of_mem c hm)
    simp only [List.cons_append, afterFirstTag]
    split
    · next hyes => exfalso; revert hyes; simp [startsWithL, hc]
    · exact ih hp

/-- No tag occurrence in a backtick-free text. -/
theorem afterFirstTag_none (t' : List Char) :
    ∀ l, btick ∉ l → afterFirstTag (btick :: t') l = none
  | [], _ => rfl
  | c :: cs, h => by
    have hc : ¬(btick = c) := fun he => h (List.mem_cons.mpr (Or.inl he))
    simp only [afterFirstTag]
    split
    · next hyes => exfalso; revert hyes; simp [startsWithL, hc]
    · exact afterFirstTag_none t' cs (fun hm => h (List.mem_cons_of_mem c hm))

/-- The first closing fence after a backtick-free body. -/
theorem splitClose_mid (J post : List Char) (hJ : btick ∉ J) :
    splitClose (J ++ (tick3 ++ post)) = some (J, post) := by
  induction J with
  | nil =>
    simp only [List.nil_append]
    rw [show tick3 ++ post = btick :: (btick :: btick :: post) from rfl]
    simp only [splitClose]
    rw [show btick :: btick :: btick :: post = tick3 ++ post from rfl,
      startsWithL_append_self]
    simp only [if_true]
    rw [show (tick3 ++ post).drop 3 = (tick3 ++ post).drop tick3.length from rfl,
      List.drop_left]
  | cons c J' ih =>
    have hc : ¬(btick = c) := fun he => hJ (List.mem_cons.mpr (Or.inl he))
    have hJ' : btick ∉ J' := fun hm => hJ (List.mem_cons_of_mem c hm)
    simp only [List.cons_append, splitClose]
    split
    · next hyes => exfalso; revert hyes; simp [startsWithL, tick3, hc]
    · have ih' : splitClose (J'.append (tick3 ++ post)) = some (J', post) :=
        ih hJ'
      rw [ih']

/-- A fenced-capture scan of a text with no tag occurrence is empty. -/
theorem fencedCaps_of_none (fuel : Nat) (tag l : List Char)
    (h : afterFirstTag tag l = none) : fencedCaps fuel tag l = [] := by
  cases fuel with
  | zero => rfl
  | succ f => simp [fencedCaps, h]

/-- The `trimL` stops at a non-whitespace head. -/
theorem trimL_nonws (c : Char) (l : List Char) (h : isPyWs c = false) :
    trimL (c :: l) = c :: l := by
  simp [trimL, h]

/-- A braced span is already stripped. -/
theorem pyStrip_braced (mid : List Char) :
    pyStrip ('{' :: mid ++ ['}']) = '{' :: mid ++ ['}'] := by
  unfold pyStrip
  rw [show ('{' :: mid ++ ['}']).reverse = '}' :: ('{' :: mid).reverse by
    simp]
  rw [trimL_nonws '}' _ (by decide)]
  rw [show ('}' :: ('{' :: mid).reverse).reverse = '{' :: mid ++ ['}'] by simp]
  rw [show ('{' : Char) :: mid ++ ['}'] = '{' :: (mid ++ ['}']) from rfl]
  rw [trimL_nonws '{' _ (by decide)]

/-- Membership in `trimL` implies membership in the original. -/
theorem mem_of_mem_trimL (x : Char) : ∀ l, x ∈ trimL l → x ∈ l
  | [], h => h
  | c :: cs, h => by
    by_cases hw : isPyWs c = true
    · simp only [trimL, hw, if_true] at h
      exact List.mem_cons_of_mem c (mem_of_mem_trimL x cs h)
    · rw [trimL_nonws c cs (by simpa using hw)] at h
      exact h

/-- Membership in the stripped string implies membership in the original. -/
theorem mem_of_mem_pyStrip (x : Char) (l : List Char) (h : x ∈ pyStrip l) :
    x ∈ l := by
  unfold pyStrip at h
  have h1 := mem_of_mem_trimL x _ h
  rw [List.mem_reverse] at h1
  have h2 := mem_of_mem_trimL x _ h1
  rw [List.mem_reverse] at h2
  exact h2

/-- The candidate cleanup leaves a braced span unchanged. -/
theorem cleanObjCand_braced (mid : List Char) :
    cleanObjCand ('{' :: mid ++ ['}']) = '{' :: mid ++ ['}'] := by
  unfold cleanObjCand
  rw [pyStrip_braced]
  simp [startsWithL]

/-- The greedy span regex on a braced span returns the span itself. -/
theorem spanCand_braced (mid : List Char) :
    spanCand '{' '}' ('{' :: mid ++ ['}']) = ['{' :: mid ++ ['}']] := by
  unfold spanCand
  rw [show ('{' : Char) :: mid ++ ['}'] = '{' :: (mid ++ ['}']) from rfl]
  simp only [suffixFromOpen, if_pos trivial]
  unfold cutAfterLast
  rw [show ('{' :: (mid ++ ['}'])).reverse = '}' :: ('{' :: mid).reverse by simp]
  simp only [dropUntilChar, if_pos trivial]
  simp

/-- C6: for a well-formed fenced JSON object (backtick-free prose before the
fence, backtick-free fence body whose stripped form is a braced span that
`json.loads` accepts), `parse_json_from_markdown` on the fenced text equals
`parse_json_from_markdown` on the fence-stripped JSON text: fence handling is
transparent with respect to the recovered value. -/
theorem c6_fence_transparent (pre J post mid : List Char) (v : Json)
    (hpre : btick ∉ pre) (hJ : btick ∉ J)
    (hC : pyStrip J = '{' :: mid ++ ['}'])
    (hv : jsonParse ('{' :: mid ++ ['}']) = some v) :
    parse_json_from_markdown (pre ++ (tagJson ++ (J ++ (tick3 ++ post)))) =
      parse_json_from_markdown (pyStrip J) := by
  have htag : tagJson = btick :: [btick, btick, 'j', 's', 'o', 'n'] := rfl
  have h5 : jsonLoads ('{' :: mid ++ ['}']) = .ok v := by
    unfold jsonLoads
    rw [hv]
  have hT : parse_json_from_markdown
      (pre ++ (tagJson ++ (J ++ (tick3 ++ post)))) = .ok (some v) := by
    unfold parse_json_from_markdown
    have h1 : afterFirstTag tagJson
        (pre ++ (tagJson ++ (J ++ (tick3 ++ post)))) =
        some (J ++ (tick3 ++ post)) := by
      rw [htag]
      exact afterFirstTag_mid _ pre _ hpre
    have h2 : splitClose (J ++ (tick3 ++ post)) = some (J, post) :=
      splitClose_mid J post hJ
    have h3 : fencedCaps ((pre ++ (tagJson ++ (J ++ (tick3 ++ post)))).length + 1)
        tagJson (pre ++ (tagJson ++ (J ++ (tick3 ++ post)))) =
        J :: fencedCaps ((pre ++ (tagJson ++ (J ++ (tick3 ++ post)))).length)
          tagJson post := by
      simp only [fencedCaps]
      rw [h1]
      simp only []
      rw [h2]
    rw [h3]
    simp only [List.cons_append]
    simp only [tryCandsObj]
    rw [show cleanObjCand J = '{' :: mid ++ ['}'] by
      unfold cleanObjCand
      rw [hC]
      simp [startsWithL]]
    rw [h5]
  have hbC : btick ∉ '{' :: mid ++ ['}'] := by
    rw [← hC]
    exact fun hm => hJ (mem_of_mem_pyStrip _ _ hm)
  have hnoJson : afterFirstTag tagJson ('{' :: mid ++ ['}']) = none :=
    afterFirstTag_none [btick, btick, 'j', 's', 'o', 'n'] _ hbC
  have hnoTick : afterFirstTag tick3 ('{' :: mid ++ ['}']) = none :=
    afterFirstTag_none [btick, btick] _ hbC
  have hR : parse_json_from_markdown (pyStrip J) = .ok (some v) := by
    rw [hC]
    unfold parse_json_from_markdown
    rw [fencedCaps_of_none _ tagJson _ hnoJson]
    rw [fencedCaps_of_none _ tick3 _ hnoTick]
    rw [spanCand_braced]
    simp only [List.nil_append, tryCandsObj]
    rw [cleanObjCand_braced, h5]
  rw [hT, hR]

/-- C6 witness: a concrete fenced object with prose on both sides parses to
the same value as its stripped JSON body. -/
theorem c6_fence_transparent_witness :
    parse_json_from_markdown
      ("Result: ".toList ++ (tagJson ++
        ((' ' :: '{' :: "\"a\": 1".toList ++ ['}', '\n']) ++
          (tick3 ++ " done".toList)))) =
      parse_json_from_markdown
        (pyStrip (' ' :: '{' :: "\"a\": 1".toList ++ ['}', '\n'])) :=
  c6_fence_transparent "Result: ".toList
    (' ' :: '{' :: "\"a\": 1".toList ++ ['}', '\n'])
    " done".toList ("\"a\": 1".toList) (Json.obj [(['a'], Json.num 1)])
    (by decide) (by decide) rfl rfl
